import Mathlib

/-!
# jx-gitops: `pr variables` and GKE requirement resolution

A shallow embedding of

* `pkg/cmd/pr/variables/variables.go` (`parseComments`, `loadPRComments`,
  `displayPullRequest`, `modifyVariables`), and
* `pkg/cmd/requirement/resolve/gke.go` (`ResolveGKE`, `getGKEMetadata`,
  `getGKEMetadataEndpoint`),

followed by theorems about them.

Modelling conventions.

* A Go `string` is modelled as the list of its Unicode code points (`Str`); the
  development is about well-formed UTF-8 text.  Byte-wise comparison of
  well-formed UTF-8 agrees with code-point-wise comparison, and every byte
  offset the code slices at sits next to a one-byte character (a double quote),
  so positions are counted in characters.
* A Go run-time panic is modelled by `none` in an `Option` result.
* A Go `map[string]string` is an association list with pairwise distinct keys;
  `range` over a map, whose order Go leaves unspecified, is a parameter.
* External collaborators (HTTP client, configuration store, git, the
  in-cluster probe, the Unicode case tables) are parameters.
-/

namespace JxGitops

/-- A Go string, as the list of its code points. -/
abbrev Str := List Char

/-! ## The parts of the Go standard library the code uses -/

/-- Go `unicode.IsSpace`: the Latin-1 cases, then the `White_Space` table. -/
def isSpace (c : Char) : Bool :=
  let n := c.toNat
  if n ≤ 0xFF then
    n = 0x09 || n = 0x0A || n = 0x0B || n = 0x0C || n = 0x0D || n = 0x20 || n = 0x85 || n = 0xA0
  else
    n = 0x1680 || (0x2000 ≤ n && n ≤ 0x200A) || n = 0x2028 || n = 0x2029 || n = 0x202F ||
      n = 0x205F || n = 0x3000

/-- Go `strings.TrimSpace`: drop leading and trailing white space. -/
def TrimSpace (s : Str) : Str :=
  ((s.dropWhile isSpace).reverse.dropWhile isSpace).reverse

/-- Go `strings.HasPrefix`. -/
def HasPrefix (s p : Str) : Bool := p.isPrefixOf s

/-- Go `strings.HasSuffix`. -/
def HasSuffix (s p : Str) : Bool := p.isSuffixOf s

/-- Go `strings.TrimPrefix`. -/
def TrimPrefix (s p : Str) : Str :=
  if HasPrefix s p then s.drop p.length else s

/-- Go `strings.Split(s, sep)` for a separator of one character: the pieces
between the occurrences of `sep`; one more piece than there are separators. -/
def Split : Str → Char → List Str
  | [], _ => [[]]
  | c :: cs, sep =>
    if c = sep then [] :: Split cs sep
    else
      match Split cs sep with
      | [] => [[c]]
      | l :: ls => (c :: l) :: ls

/-- Go `strings.SplitN(s, sep, 2)` for a separator of one character: the whole
string when `sep` does not occur, else the text before the first `sep` and the
text after it. -/
def SplitN2 (s : Str) (sep : Char) : List Str :=
  match s.dropWhile (fun c => c != sep) with
  | [] => [s]
  | _ :: rest => [s.takeWhile (fun c => c != sep), rest]

/-- Go slice expression `s[lo:hi]` on a string: a run-time panic unless
`0 ≤ lo ≤ hi ≤ len(s)`. -/
def slice (s : Str) (lo hi : Int) : Option Str :=
  if 0 ≤ lo ∧ lo ≤ hi ∧ hi ≤ (s.length : Int) then
    some ((s.take hi.toNat).drop lo.toNat)
  else none

/-- Go `strings.ReplaceAll(s, old, new)` for `old` and `new` of one character. -/
def ReplaceAll (s : Str) (old new : Char) : Str :=
  s.map fun c => if c = old then new else c

/-- Go `unicode.ToUpper`: ASCII letters are shifted, other ASCII is kept, and
everything above ASCII goes through the Unicode case table `tbl`. -/
def unicodeToUpper (tbl : Char → Char) (r : Char) : Char :=
  if r.toNat ≤ 0x7F then
    if 'a'.toNat ≤ r.toNat ∧ r.toNat ≤ 'z'.toNat then Char.ofNat (r.toNat - 32) else r
  else tbl r

/-- Go `strings.ToUpper`: `unicode.ToUpper` on every code point. -/
def ToUpper (tbl : Char → Char) (s : Str) : Str := s.map (unicodeToUpper tbl)

/-- Go's `<` on strings (lexicographic; on well-formed UTF-8 the byte order is
the code-point order). -/
def strLess : Str → Str → Bool
  | [], [] => false
  | [], _ :: _ => true
  | _ :: _, [] => false
  | a :: as, b :: bs =>
    if a.toNat < b.toNat then true
    else if b.toNat < a.toNat then false
    else strLess as bs

/-- The order `sort.Strings` sorts into: `a` may stand before `b`. -/
def strLe (a b : Str) : Prop := strLess b a = false

instance : DecidableRel strLe := fun a b => by unfold strLe; infer_instance

/-- Go `sort.Strings`: the ascending rearrangement of the list. -/
def sortStrings (l : List Str) : List Str := l.insertionSort strLe

/-- Go `strings.Join(l, sep)`. -/
def Join (l : List Str) (sep : Str) : Str := sep.intercalate l

/-! ## Maps -/

/-- A Go `map[string]string`. -/
abbrev EnvMap := List (Str × Str)

/-- The assignment `m[k] = v`. -/
def EnvMap.set : EnvMap → Str → Str → EnvMap
  | [], k, v => [(k, v)]
  | (k', v') :: rest, k, v =>
    if k' = k then (k, v) :: rest else (k', v') :: EnvMap.set rest k v

/-- The read `m[k]`, with `none` for an absent key. -/
def EnvMap.get : EnvMap → Str → Option Str
  | [], _ => none
  | (k', v') :: rest, k => if k' = k then some v' else EnvMap.get rest k

/-- The keys of a map. -/
def EnvMap.keys (m : EnvMap) : List Str := m.map Prod.fst

/-! ## `pkg/cmd/pr/variables/variables.go` -/

/-- The fields of `Options` the code reads. -/
structure Options where
  UseComments : Bool
  CommentPrefix : Str
  EnvVarNamePrefix : Str

/-- The flag defaults set in `NewCmdPullRequestVariables`. -/
def defaultOptions : Options :=
  { UseComments := false
    CommentPrefix := "/jx-var".toList
    EnvVarNamePrefix := "PR_COMMENT_".toList }

/-- One iteration of the loop of `parseComments`: the effect of one line on the
map; `none` is a run-time panic. -/
def parseLine (o : Options) (envVars : EnvMap) (line : Str) : Option EnvMap :=
  let text := TrimSpace line
  if text = [] ∨ HasPrefix text o.CommentPrefix = false then some envVars
  else
    let expression := TrimSpace (TrimPrefix text o.CommentPrefix)
    match SplitN2 expression '=' with
    | [p0, p1] =>
      let name := TrimSpace p0
      if name = [] then some envVars
      else
        let value := TrimSpace p1
        if HasPrefix value ['"'] ∧ HasSuffix value ['"'] then
          match slice value 1 ((value.length : Int) - 1) with
          | none => none
          | some value1 => some (envVars.set (o.EnvVarNamePrefix ++ name) value1)
        else some (envVars.set (o.EnvVarNamePrefix ++ name) value)
    | _ => some envVars

/-- The loop of `parseComments` over the lines. -/
def parseLines (o : Options) : EnvMap → List Str → Option EnvMap
  | envVars, [] => some envVars
  | envVars, line :: rest =>
    match parseLine o envVars line with
    | none => none
    | some envVars1 => parseLines o envVars1 rest

/-- `parseComments` on the body of a comment. -/
def parseComments (o : Options) (envVars : EnvMap) (body : Str) : Option EnvMap :=
  parseLines o envVars (Split body '\n')

/-- The parts of `scm.PullRequest` the code reads: `Base` and `Head`. -/
structure PullRequestBranch where
  Ref : Str
  Sha : Str

/-- An `scm.Label`. -/
structure Label where
  Name : Str

/-- An `scm.PullRequest`. -/
structure PullRequest where
  Base : PullRequestBranch
  Head : PullRequestBranch
  Labels : List Label

/-- An `scm.Comment`. -/
structure Comment where
  Body : Str

/-- The loop of `loadPRComments` over the comments. -/
def parseAll (o : Options) : EnvMap → List Comment → Option EnvMap
  | envVars, [] => some envVars
  | envVars, c :: rest =>
    match parseComments o envVars c.Body with
    | none => none
    | some envVars1 => parseAll o envVars1 rest

/-- `loadPRComments`; `listComments` is what `ScmClient.PullRequests.ListComments`
answers (an error, or the comments in ascending order).  The outer `none` is a
run-time panic, `Except.error` an error that is returned. -/
def loadPRComments (o : Options) (envVars : EnvMap)
    (listComments : Except Str (List Comment)) : Option (Except Str EnvMap) :=
  match listComments with
  | Except.error e => some (Except.error ("failed to list comments of PR: ".toList ++ e))
  | Except.ok comments =>
    match parseAll o envVars comments with
    | none => none
    | some envVars1 => some (Except.ok envVars1)

/-- The map literal that `displayPullRequest` starts from. -/
def fixedVars (pr : PullRequest) : EnvMap :=
  [("PR_BASE_SHA".toList, pr.Base.Sha),
   ("PR_BASE_REF".toList, pr.Base.Ref),
   ("PR_HEAD_REF".toList, pr.Head.Ref),
   ("PR_HEAD_SHA".toList, pr.Head.Sha)]

/-- The key `displayPullRequest` derives from a label name. -/
def labelKey (tbl : Char → Char) (name : Str) : Str :=
  let n := ReplaceAll name '/' '_'
  let n := ReplaceAll n ':' '_'
  let n := ReplaceAll n '-' '_'
  "PR_LABEL_".toList ++ ToUpper tbl n

/-- The loop of `displayPullRequest` over `pr.Labels`. -/
def addLabels (tbl : Char → Char) : EnvMap → List Label → EnvMap
  | e, [] => e
  | e, label :: rest => addLabels tbl (e.set (labelKey tbl label.Name) "true".toList) rest

/-- The line `fmt.Sprintf("export %s=\"%s\"", k, v)`. -/
def renderLine (kv : Str × Str) : Str :=
  "export ".toList ++ kv.1 ++ "=\"".toList ++ kv.2 ++ "\"".toList

/-- The end of `displayPullRequest`: the lines of the map entries in the order
`range` visits them, sorted and joined. -/
def renderText (range : EnvMap → List (Str × Str)) (e : EnvMap) : Str :=
  Join (sortStrings ((range e).map renderLine)) "\n".toList

/-- The text `displayPullRequest` hands to `modifyVariables`.  `tbl` is the
Unicode upper-case table, `range` the order in which Go iterates over a map. -/
def generatedText (o : Options) (tbl : Char → Char) (range : EnvMap → List (Str × Str))
    (listComments : Except Str (List Comment)) (pr : PullRequest) :
    Option (Except Str Str) :=
  let e := addLabels tbl (fixedVars pr) pr.Labels
  if o.UseComments then
    match loadPRComments o e listComments with
    | none => none
    | some (Except.error err) =>
      some (Except.error ("failed to load variables from PR comments: ".toList ++ err))
    | some (Except.ok e1) => some (Except.ok (renderText range e1))
  else some (Except.ok (renderText range e))

/-- What the collaborators of `modifyVariables` answer: for each, the error it
reports, if any. -/
structure FileOps where
  validateBase : Option Str
  validatePR : Option Str
  fileExists : Option Str
  readFile : Option Str
  mkdirAll : Option Str
  writeFile : Option Str

/-- Collaborators that all succeed. -/
def FileOps.allOk : FileOps :=
  { validateBase := none, validatePR := none, fileExists := none,
    readFile := none, mkdirAll := none, writeFile := none }

/-- The first line `modifyVariables` writes. -/
def generatedBanner : Str := "\n# generated by: jx gitops pr variables\n".toList

/-- The line `modifyVariables` writes before the previous content. -/
def gitSeparator : Str := "\n\n# content from git...\n".toList

/-- The buffer `modifyVariables` builds from the generated text and the
previous content `source` of the file. -/
def composeContent (text source : Str) : Str :=
  let buf := generatedBanner
  let buf := buf ++ text
  let buf := buf ++ "\n".toList
  if source ≠ [] then (buf ++ gitSeparator) ++ source else buf

/-- `modifyVariables`: `file` is the content of the target file (`none` when it
does not exist); the result is the content written to it, or the error
returned (in which case nothing has been written). -/
def modifyVariables (io : FileOps) (text : Str) (file : Option Str) : Except Str Str :=
  match io.validateBase with
  | some e => Except.error ("failed to validate base options: ".toList ++ e)
  | none =>
  match io.validatePR with
  | some e => Except.error ("failed to validate PR options: ".toList ++ e)
  | none =>
  match io.fileExists with
  | some e => Except.error ("failed to check if file exists: ".toList ++ e)
  | none =>
  let readResult : Except Str Str :=
    match file with
    | none => Except.ok []
    | some data =>
      match io.readFile with
      | some e => Except.error ("failed to read file: ".toList ++ e)
      | none => Except.ok data
  match readResult with
  | Except.error e => Except.error e
  | Except.ok source =>
  let source1 := composeContent text source
  match io.mkdirAll with
  | some e => Except.error ("failed to create dir: ".toList ++ e)
  | none =>
  match io.writeFile with
  | some e => Except.error ("failed to save: ".toList ++ e)
  | none => Except.ok source1

/-- `displayPullRequest`: the generated text, handed to `modifyVariables`. -/
def displayPullRequest (o : Options) (tbl : Char → Char)
    (range : EnvMap → List (Str × Str)) (listComments : Except Str (List Comment))
    (io : FileOps) (file : Option Str) (pr : PullRequest) : Option (Except Str Str) :=
  match generatedText o tbl range listComments pr with
  | none => none
  | some (Except.error e) => some (Except.error e)
  | some (Except.ok text) => some (modifyVariables io text file)

/-- The order of two map entries by key. -/
def keyLe (a b : Str × Str) : Prop := strLe a.1 b.1

instance : DecidableRel keyLe := fun a b => by unfold keyLe; infer_instance

/-- Following the spec ("sorting by key"): the entries of a map sorted
lexicographically by key.  The code does not compute this; it is what the spec
compares the order of the output with. -/
def sortedByKey (e : EnvMap) : List (Str × Str) := e.insertionSort keyLe

/-! ## `pkg/cmd/requirement/resolve/gke.go` -/

/-- `GKEMetadataEndpoint`. -/
def GKEMetadataEndpoint : Str := "http://metadata.google.internal/computeMetadata/v1/".toList

/-- `GKEPathProjectID`. -/
def GKEPathProjectID : Str := "project/project-id".toList

/-- `GKEPathProjectNumber`. -/
def GKEPathProjectNumber : Str := "project/numeric-project-id".toList

/-- `GKEPathClusterName`. -/
def GKEPathClusterName : Str := "instance/attributes/cluster-name".toList

/-- `GKEPathClusterLocation`. -/
def GKEPathClusterLocation : Str := "instance/attributes/cluster-location".toList

/-- The field of `config.GKEConfig` the code uses. -/
structure RequirementsGKEConfig where
  ProjectNumber : Str
deriving DecidableEq

/-- The fields of `config.ClusterConfig` the code uses; `GKEConfig` is a
pointer that may be nil. -/
structure ClusterConfig where
  ProjectID : Str
  ClusterName : Str
  Region : Str
  Zone : Str
  GKEConfig : Option RequirementsGKEConfig
deriving DecidableEq

/-- The project number, read through the pointer (empty when it is nil). -/
def ClusterConfig.projectNumber (c : ClusterConfig) : Str :=
  match c.GKEConfig with
  | none => []
  | some g => g.ProjectNumber

/-- What `ResolveGKE` does to the outside world. -/
inductive Event where
  | httpGet (url : Str)
  | saveConfig (cluster : ClusterConfig)
  | commit
deriving DecidableEq

/-- The errors `ResolveGKE` returns, by the place that returns them. -/
inductive ResolveError where
  | notInCluster
  | createRequest (url : Str)
  | getEndpoint (url : Str)
  | saveFailed
  | commitFailed
deriving DecidableEq

/-- The collaborators of `ResolveGKE`: the in-cluster probe, `UrlJoin`,
`http.NewRequest` (does it fail on this URL), the HTTP client together with
reading the response (the body, or `none` on failure), `SaveConfig` and
`CommitIfChanges` (do they succeed). -/
structure World where
  isInCluster : Bool
  urlJoin : Str → Str → Str
  newRequestFails : Str → Bool
  get : Str → Option Str
  saveOk : ClusterConfig → Bool
  commitOk : Bool

/-- The state `ResolveGKE` works on: the fields of the resolve `Options`, and
the events so far. -/
structure ResolveState where
  cluster : ClusterConfig
  NoInClusterCheck : Bool
  NoCommit : Bool
  MetadataEndpoint : Str
  trace : List Event

/-- `getGKEMetadataEndpoint`: the configured endpoint, defaulted (and stored)
when empty. -/
def getGKEMetadataEndpoint (s : ResolveState) : Str × ResolveState :=
  if s.MetadataEndpoint = [] then
    (GKEMetadataEndpoint, { s with MetadataEndpoint := GKEMetadataEndpoint })
  else (s.MetadataEndpoint, s)

/-- `getGKEMetadata`: one GET of `path` below the endpoint, the body trimmed. -/
def getGKEMetadata (w : World) (path : Str) (s : ResolveState) :
    Except ResolveError Str × ResolveState :=
  let (ep, s) := getGKEMetadataEndpoint s
  let u := w.urlJoin ep path
  if w.newRequestFails u then (Except.error (ResolveError.createRequest u), s)
  else
    let s := { s with trace := s.trace ++ [Event.httpGet u] }
    match w.get u with
    | none => (Except.error (ResolveError.getEndpoint u), s)
    | some body => (Except.ok (TrimSpace body), s)

/-- The end of `ResolveGKE`: save, then commit unless `NoCommit`. -/
def saveAndCommit (w : World) (s : ResolveState) : Except ResolveError Unit × ResolveState :=
  let s := { s with trace := s.trace ++ [Event.saveConfig s.cluster] }
  if w.saveOk s.cluster = false then (Except.error ResolveError.saveFailed, s)
  else if s.NoCommit then (Except.ok (), s)
  else
    let s := { s with trace := s.trace ++ [Event.commit] }
    if w.commitOk = false then (Except.error ResolveError.commitFailed, s)
    else (Except.ok (), s)

/-- Go's `if err != nil { return err }`: stop at an error, else go on. -/
def orReturn (r : Except ResolveError Unit × ResolveState)
    (k : ResolveState → Except ResolveError Unit × ResolveState) :
    Except ResolveError Unit × ResolveState :=
  match r with
  | (Except.error e, s) => (Except.error e, s)
  | (Except.ok _, s) => k s

/-- An assignment `field, err = o.getGKEMetadata(path)` followed by the return
on error; `assign` stores the value in the field. -/
def fetchInto (w : World) (path : Str) (assign : ClusterConfig → Str → ClusterConfig)
    (s : ResolveState) : Except ResolveError Unit × ResolveState :=
  match getGKEMetadata w path s with
  | (Except.error e, s) => (Except.error e, s)
  | (Except.ok v, s) => (Except.ok (), { s with cluster := assign s.cluster v })

/-- The part of `ResolveGKE` after the in-cluster check: the four conditional
fetches, on the local variables read at the start, then save and commit. -/
def resolveMissing (w : World) (projectID projectNumber clusterName location : Str)
    (s : ResolveState) : Except ResolveError Unit × ResolveState :=
  let s := (getGKEMetadataEndpoint s).2
  orReturn
    (if projectID = [] then
      fetchInto w GKEPathProjectID (fun c v => { c with ProjectID := v }) s
    else (Except.ok (), s)) fun s =>
  orReturn
    (if projectNumber = [] then
      fetchInto w GKEPathProjectNumber
        (fun c v => { c with GKEConfig := some { ProjectNumber := v } }) s
    else (Except.ok (), s)) fun s =>
  orReturn
    (if clusterName = [] then
      fetchInto w GKEPathClusterName (fun c v => { c with ClusterName := v }) s
    else (Except.ok (), s)) fun s =>
  orReturn
    (if location = [] then
      fetchInto w GKEPathClusterLocation (fun c location1 => { c with Zone := location1 }) s
    else (Except.ok (), s)) fun s =>
  saveAndCommit w s

/-- `ResolveGKE`. -/
def ResolveGKE (w : World) (s : ResolveState) : Except ResolveError Unit × ResolveState :=
  let s : ResolveState :=
    match s.cluster.GKEConfig with
    | none => { s with cluster := { s.cluster with GKEConfig := some { ProjectNumber := [] } } }
    | some _ => s
  let projectID := s.cluster.ProjectID
  let clusterName := s.cluster.ClusterName
  let projectNumber := s.cluster.projectNumber
  let region := s.cluster.Region
  let zone := s.cluster.Zone
  let location := if region = [] then zone else region
  if projectID ≠ [] ∧ clusterName ≠ [] ∧ projectNumber ≠ [] ∧ (zone ≠ [] ∨ region ≠ []) then
    (Except.ok (), s)
  else if s.NoInClusterCheck = false ∧ w.isInCluster = false then
    (Except.error ResolveError.notInCluster, s)
  else resolveMissing w projectID projectNumber clusterName location s

/-! ## Concrete inputs -/

/-- A pull request with no labels. -/
def examplePR : PullRequest :=
  { Base := { Ref := "main".toList, Sha := "abc123".toList }
    Head := { Ref := "feature-1".toList, Sha := "def456".toList }
    Labels := [] }

/-- The default flags with comments switched on and `--env-prefix PR_`. -/
def collidingOptions : Options :=
  { UseComments := true
    CommentPrefix := "/jx-var".toList
    EnvVarNamePrefix := "PR_".toList }

/-- The default flags with comments switched on. -/
def commentOptions : Options :=
  { UseComments := true
    CommentPrefix := "/jx-var".toList
    EnvVarNamePrefix := "PR_COMMENT_".toList }

/-- The default flags, but with a comment prefix that starts with a blank. -/
def blankPrefixOptions : Options :=
  { UseComments := true
    CommentPrefix := " /jx-var".toList
    EnvVarNamePrefix := "PR_COMMENT_".toList }

/-- A pull request with the labels `v1` and `v10`. -/
def versionLabelsPR : PullRequest :=
  { Base := { Ref := "main".toList, Sha := "abc123".toList }
    Head := { Ref := "feature-1".toList, Sha := "def456".toList }
    Labels := [{ Name := "v1".toList }, { Name := "v10".toList }] }

/-- A pull request with the labels `a` and `ab`. -/
def letterLabelsPR : PullRequest :=
  { Base := { Ref := "main".toList, Sha := "abc123".toList }
    Head := { Ref := "feature-1".toList, Sha := "def456".toList }
    Labels := [{ Name := "ab".toList }, { Name := "a".toList }] }

/-- A pull request with the labels `team/x` and `needs-ci`. -/
def teamLabelsPR : PullRequest :=
  { Base := { Ref := "main".toList, Sha := "abc123".toList }
    Head := { Ref := "feature-1".toList, Sha := "def456".toList }
    Labels := [{ Name := "team/x".toList }, { Name := "needs-ci".toList }] }

/-- A complete state, for the no-op case. -/
def completeState : ResolveState :=
  { cluster :=
      { ProjectID := "p".toList, ClusterName := "c".toList, Region := [], Zone := "z".toList,
        GKEConfig := some { ProjectNumber := "1".toList } }
    NoInClusterCheck := false, NoCommit := false, MetadataEndpoint := [], trace := [] }

/-- A world outside the cluster in which every request fails. -/
def outsideWorld : World :=
  { isInCluster := false, urlJoin := fun a b => a ++ b, newRequestFails := fun _ => false,
    get := fun _ => none, saveOk := fun _ => true, commitOk := true }

/-- An incomplete state: nothing is known yet. -/
def emptyState : ResolveState :=
  { cluster := { ProjectID := [], ClusterName := [], Region := [], Zone := [], GKEConfig := none }
    NoInClusterCheck := false, NoCommit := false, MetadataEndpoint := [], trace := [] }

/-- A metadata server: the body it answers with, by URL. -/
def metadataServer (u : Str) : Str :=
  if u = GKEMetadataEndpoint ++ GKEPathProjectID then "  my-project\n".toList
  else if u = GKEMetadataEndpoint ++ GKEPathProjectNumber then "12345\n".toList
  else if u = GKEMetadataEndpoint ++ GKEPathClusterName then " my-cluster ".toList
  else "europe-west1-b\n".toList

/-- A world inside the cluster, with the metadata server answering. -/
def insideWorld : World :=
  { isInCluster := true, urlJoin := fun a b => a ++ b, newRequestFails := fun _ => false,
    get := fun u => some (metadataServer u), saveOk := fun _ => true, commitOk := true }

/-- The body the metadata server answers with, by path below the default
endpoint. -/
def metadataBody (path : Str) : Str := metadataServer (GKEMetadataEndpoint ++ path)

/-! ## Theorems -/

/-! ### Maps -/

/-- Reading the key just written gives the value written. -/
theorem EnvMap.get_set_self (m : EnvMap) (k v : Str) : (m.set k v).get k = some v := by
  induction m with
  | nil => simp [EnvMap.set, EnvMap.get]
  | cons kv rest ih =>
    obtain ⟨k', v'⟩ := kv
    by_cases h : k' = k
    · simp [EnvMap.set, EnvMap.get, h]
    · simp [EnvMap.set, EnvMap.get, h, ih]

/-- Writing a key leaves every other key as it was. -/
theorem EnvMap.get_set_ne (m : EnvMap) (k v k0 : Str) (h0 : k0 ≠ k) :
    (m.set k v).get k0 = m.get k0 := by
  induction m with
  | nil => simp [EnvMap.set, EnvMap.get, Ne.symm h0]
  | cons kv rest ih =>
    obtain ⟨k', v'⟩ := kv
    by_cases h : k' = k
    · subst h
      simp [EnvMap.set, EnvMap.get, Ne.symm h0]
    · by_cases h1 : k' = k0
      · subst h1
        simp [EnvMap.set, EnvMap.get, h]
      · simp [EnvMap.set, EnvMap.get, h, h1, ih]

/-- The keys after a write: the key written and the keys before. -/
theorem EnvMap.mem_keys_set (m : EnvMap) (k v k0 : Str) :
    k0 ∈ (m.set k v).keys ↔ k0 = k ∨ k0 ∈ m.keys := by
  induction m with
  | nil => simp [EnvMap.set, EnvMap.keys]
  | cons kv rest ih =>
    obtain ⟨k', v'⟩ := kv
    by_cases h : k' = k
    · subst h
      simp [EnvMap.set, EnvMap.keys]
    · simp only [EnvMap.keys] at ih
      simp [EnvMap.set, EnvMap.keys, h, ih]
      tauto

/-- A write keeps the keys pairwise distinct. -/
theorem EnvMap.nodup_keys_set (m : EnvMap) (k v : Str) (hm : m.keys.Nodup) :
    (m.set k v).keys.Nodup := by
  induction m with
  | nil => simp [EnvMap.set, EnvMap.keys]
  | cons kv rest ih =>
    obtain ⟨k', v'⟩ := kv
    have hm' : k' ∉ EnvMap.keys rest ∧ (EnvMap.keys rest).Nodup := by
      simpa [EnvMap.keys] using hm
    by_cases h : k' = k
    · subst h
      simpa [EnvMap.set, EnvMap.keys] using hm
    · have hk : k' ∉ (EnvMap.set rest k v).keys := by
        rw [EnvMap.mem_keys_set]
        rintro (h1 | h1)
        · exact h h1
        · exact hm'.1 h1
      have := ih hm'.2
      simp only [EnvMap.keys] at this hk
      simp [EnvMap.set, EnvMap.keys, h, this]
      simpa using hk

/-- With distinct keys, an entry is in the map exactly when the map reads so. -/
theorem EnvMap.mem_iff_get (m : EnvMap) (hm : m.keys.Nodup) (k v : Str) :
    (k, v) ∈ m ↔ m.get k = some v := by
  induction m with
  | nil => simp [EnvMap.get]
  | cons kv rest ih =>
    obtain ⟨k', v'⟩ := kv
    have hm' : k' ∉ EnvMap.keys rest ∧ (EnvMap.keys rest).Nodup := by
      simpa [EnvMap.keys] using hm
    by_cases h : k' = k
    · subst h
      have : ∀ x, (k', x) ∉ rest := by
        intro x hx
        exact hm'.1 (List.mem_map.2 ⟨(k', x), hx, rfl⟩)
      simp [EnvMap.get, this]
      exact eq_comm
    · simp [EnvMap.get, h, ih hm'.2]
      intro h1
      exact absurd h1.symm h

/-! ### Strings -/

/-- `TrimSpace` drops white space on the left, then on the right. -/
theorem TrimSpace_eq (s : Str) :
    TrimSpace s = (s.dropWhile isSpace).rdropWhile isSpace := rfl

/-- Dropping on the left stops at a character that does not satisfy `p`. -/
theorem dropWhile_append_cons (p : Char → Bool) (a b : Str) (c : Char) (hc : p c = false) :
    (a ++ c :: b).dropWhile p = a.dropWhile p ++ c :: b := by
  induction a with
  | nil => simp [hc]
  | cons x a ih =>
    by_cases hx : p x = true
    · simp [hx, ih]
    · simp [hx]

/-- Dropping on the right stops at a character that does not satisfy `p`. -/
theorem rdropWhile_append_cons (p : Char → Bool) (a b : Str) (c : Char) (hc : p c = false) :
    (a ++ c :: b).rdropWhile p = a ++ c :: b.rdropWhile p := by
  have h : (a ++ c :: b).reverse = b.reverse ++ c :: a.reverse := by simp
  rw [List.rdropWhile, h, dropWhile_append_cons p _ _ c hc]
  simp [List.rdropWhile]

/-- Trimming a string around a character that is not white space. -/
theorem TrimSpace_split (a b : Str) (c : Char) (hc : isSpace c = false) :
    TrimSpace (a ++ c :: b) = a.dropWhile isSpace ++ c :: b.rdropWhile isSpace := by
  rw [TrimSpace_eq, dropWhile_append_cons isSpace a b c hc,
    rdropWhile_append_cons isSpace _ b c hc]

/-- A string trims to nothing exactly when it is all white space. -/
theorem TrimSpace_eq_nil_iff (s : Str) : TrimSpace s = [] ↔ ∀ c ∈ s, isSpace c = true := by
  rw [TrimSpace_eq, List.rdropWhile_eq_nil_iff]
  constructor
  · intro h
    have hnil : s.dropWhile isSpace = [] := by
      by_contra hne
      have h1 := List.head_dropWhile_not isSpace s hne
      have h2 := h _ (List.head_mem hne)
      rw [h2] at h1
      cases h1
    exact List.dropWhile_eq_nil_iff.1 hnil
  · intro h c hc
    exact h c (List.dropWhile_subset isSpace hc)

/-- Trimming only removes characters. -/
theorem mem_of_mem_TrimSpace (s : Str) (c : Char) (hc : c ∈ TrimSpace s) : c ∈ s := by
  rw [TrimSpace_eq] at hc
  exact List.dropWhile_subset isSpace ((List.rdropWhile_prefix isSpace _).subset hc)

/-- White space in front of a string does not change what it trims to. -/
theorem TrimSpace_cons_space (c : Char) (s : Str) (hc : isSpace c = true) :
    TrimSpace (c :: s) = TrimSpace s := by
  simp [TrimSpace, hc]

/-- Without the separator there is one piece. -/
theorem SplitN2_not_mem (s : Str) (sep : Char) (h : sep ∉ s) : SplitN2 s sep = [s] := by
  have : s.dropWhile (fun c => c != sep) = [] := by
    rw [List.dropWhile_eq_nil_iff]
    intro x hx
    have : x ≠ sep := fun e => h (e ▸ hx)
    simpa using this
  simp [SplitN2, this]

/-- The two pieces around the first separator. -/
theorem SplitN2_append (a b : Str) (sep : Char) (h : sep ∉ a) :
    SplitN2 (a ++ sep :: b) sep = [a, b] := by
  have hall : ∀ x ∈ a, (fun c => c != sep) x = true := by
    intro x hx
    have : x ≠ sep := fun e => h (e ▸ hx)
    simpa using this
  have hd : (a ++ sep :: b).dropWhile (fun c => c != sep) = sep :: b := by
    rw [List.dropWhile_append_of_pos hall]
    simp
  have ht : (a ++ sep :: b).takeWhile (fun c => c != sep) = a := by
    rw [List.takeWhile_append_of_pos hall]
    simp
  simp [SplitN2, hd, ht]

/-- A string in which the separator occurs, cut at its first occurrence. -/
theorem exists_split_at_first (s : Str) (sep : Char) (h : sep ∈ s) :
    ∃ b, s = s.takeWhile (fun c => c != sep) ++ sep :: b
      ∧ sep ∉ s.takeWhile (fun c => c != sep) := by
  have hnot : sep ∉ s.takeWhile (fun c => c != sep) := by
    intro hm
    have := List.mem_takeWhile_imp hm
    simp at this
  have hne : s.dropWhile (fun c => c != sep) ≠ [] := by
    intro hnil
    rw [List.dropWhile_eq_nil_iff] at hnil
    have := hnil sep h
    simp at this
  obtain ⟨x, b, hxb⟩ := List.exists_cons_of_ne_nil hne
  have hx : x = sep := by
    have h1 := List.head_dropWhile_not (fun c => c != sep) s hne
    simp only [hxb, List.head_cons] at h1
    simpa using h1
  refine ⟨b, ?_, hnot⟩
  conv_lhs => rw [← List.takeWhile_append_dropWhile (fun c => c != sep) s]
  rw [hxb, hx]

/-- Characters that all satisfy `p` at the end of a string are dropped. -/
theorem rdropWhile_append_of_all (p : Char → Bool) (a l : Str) (hl : ∀ c ∈ l, p c = true) :
    (a ++ l).rdropWhile p = a.rdropWhile p := by
  have h : ∀ c ∈ l.reverse, p c = true := fun c hc => hl c (List.mem_reverse.1 hc)
  simp only [List.rdropWhile, List.reverse_append]
  rw [List.dropWhile_append_of_pos h]

/-- Dropping on the left and dropping on the right commute. -/
theorem dropWhile_rdropWhile_comm (p : Char → Bool) (s : Str) :
    (s.rdropWhile p).dropWhile p = (s.dropWhile p).rdropWhile p := by
  by_cases hall : ∀ c ∈ s, p c = true
  · rw [List.rdropWhile_eq_nil_iff.2 hall, List.dropWhile_eq_nil_iff.2 hall]
    rfl
  · have hne : s.dropWhile p ≠ [] := fun h => hall (List.dropWhile_eq_nil_iff.1 h)
    obtain ⟨c, b, hcb⟩ := List.exists_cons_of_ne_nil hne
    have hc : p c = false := by
      have h1 := List.head_dropWhile_not p s hne
      simp only [hcb, List.head_cons] at h1
      exact h1
    have hs : s = s.takeWhile p ++ c :: b := by
      conv_lhs => rw [← List.takeWhile_append_dropWhile p s]
      rw [hcb]
    have ha : ∀ x ∈ s.takeWhile p, p x = true := fun x hx => List.mem_takeWhile_imp hx
    have h1 : (s.rdropWhile p).dropWhile p = c :: b.rdropWhile p := by
      rw [hs, rdropWhile_append_cons p _ b c hc, dropWhile_append_cons p _ _ c hc,
        List.dropWhile_eq_nil_iff.2 ha]
      rfl
    have h2 : (c :: b).rdropWhile p = c :: b.rdropWhile p :=
      rdropWhile_append_cons p [] b c hc
    rw [h1, hcb, h2]

/-- Trimming what has been trimmed on the left. -/
theorem TrimSpace_dropWhile (s : Str) : TrimSpace (s.dropWhile isSpace) = TrimSpace s := by
  rw [TrimSpace_eq, TrimSpace_eq, List.dropWhile_idempotent]

/-- Trimming what has been trimmed on the right. -/
theorem TrimSpace_rdropWhile (s : Str) : TrimSpace (s.rdropWhile isSpace) = TrimSpace s := by
  rw [TrimSpace_eq, TrimSpace_eq, dropWhile_rdropWhile_comm, List.rdropWhile_idempotent]

/-- `Split` always yields a piece. -/
theorem Split_ne_nil (s : Str) (sep : Char) : Split s sep ≠ [] := by
  cases s with
  | nil => simp [Split]
  | cons c cs =>
    simp only [Split]
    split_ifs
    · simp
    · split <;> simp

/-- The pieces of a string are made of its characters. -/
theorem mem_of_mem_Split (sep : Char) (s : Str) :
    ∀ line ∈ Split s sep, ∀ c ∈ line, c ∈ s := by
  induction s with
  | nil =>
    intro line hl c hc
    simp only [Split, List.mem_singleton] at hl
    rw [hl] at hc
    exact hc
  | cons x xs ih =>
    intro line hl c hc
    simp only [Split] at hl
    split_ifs at hl with hx
    · rcases List.mem_cons.1 hl with h | h
      · rw [h] at hc; cases hc
      · exact List.mem_cons_of_mem _ (ih line h c hc)
    · cases hsp : Split xs sep with
      | nil => exact absurd hsp (Split_ne_nil xs sep)
      | cons l ls =>
        rw [hsp] at hl ih
        rcases List.mem_cons.1 hl with h | h
        · rw [h] at hc
          rcases List.mem_cons.1 hc with h1 | h1
          · rw [h1]; exact List.mem_cons_self _ _
          · exact List.mem_cons_of_mem _ (ih l (List.mem_cons_self _ _) c h1)
        · exact List.mem_cons_of_mem _ (ih line (List.mem_cons_of_mem _ h) c hc)

/-- Text without the separator in front of a string joins its first piece. -/
theorem Split_append_left (sep : Char) (core t : Str) (hcore : sep ∉ core) :
    ∃ l ls, Split t sep = l :: ls ∧ Split (core ++ t) sep = (core ++ l) :: ls := by
  induction core with
  | nil =>
    cases hsp : Split t sep with
    | nil => exact absurd hsp (Split_ne_nil t sep)
    | cons l ls => exact ⟨l, ls, rfl, by simpa using hsp⟩
  | cons x xs ih =>
    have hx : x ≠ sep := fun e => hcore (e ▸ List.mem_cons_self _ _)
    obtain ⟨l, ls, h1, h2⟩ := ih (fun h => hcore (List.mem_cons_of_mem _ h))
    refine ⟨l, ls, h1, ?_⟩
    simp [Split, hx, h2]

/-! ### The order of strings, and sorting -/

/-- No string is below itself. -/
theorem strLess_irrefl (a : Str) : strLess a a = false := by
  induction a with
  | nil => rfl
  | cons x xs ih => simp [strLess, ih]

/-- If `a` is below `b`, then `b` is not below `a`. -/
theorem strLess_asymm : ∀ a b : Str, strLess a b = true → strLess b a = false
  | [], [], h => by simp [strLess] at h
  | [], _ :: _, _ => by simp [strLess]
  | _ :: _, [], h => by simp [strLess] at h
  | x :: xs, y :: ys, h => by
    simp only [strLess] at h ⊢
    by_cases h1 : x.toNat < y.toNat
    · have h2 : ¬ y.toNat < x.toNat := by omega
      simp [h1, h2]
    · by_cases h2 : y.toNat < x.toNat
      · simp [h1, h2] at h
      · simp only [h1, h2, if_false] at h ⊢
        exact strLess_asymm xs ys h

/-- Two strings neither of which is below the other are equal. -/
theorem strLess_trichotomy : ∀ a b : Str, strLess a b = false → strLess b a = false → a = b
  | [], [], _, _ => rfl
  | [], _ :: _, h, _ => by simp [strLess] at h
  | _ :: _, [], _, h => by simp [strLess] at h
  | x :: xs, y :: ys, h1, h2 => by
    simp only [strLess] at h1 h2
    split_ifs at h1 h2 with h3 h4
    have hxy : x = y := by
      have : x.toNat = y.toNat := by omega
      rw [← Char.ofNat_toNat x, ← Char.ofNat_toNat y, this]
    rw [hxy, strLess_trichotomy xs ys h1 h2]

/-- If `a` is below `c`, every `b` is above `a` or below `c`. -/
theorem strLess_cotrans : ∀ a b c : Str, strLess a c = true →
    strLess a b = true ∨ strLess b c = true
  | [], [], [], h => by simp [strLess] at h
  | [], [], _ :: _, _ => by simp [strLess]
  | [], _ :: _, _, _ => by simp [strLess]
  | _ :: _, _, [], h => by simp [strLess] at h
  | _ :: _, [], _ :: _, _ => by simp [strLess]
  | x :: xs, y :: ys, z :: zs, h => by
    simp only [strLess] at h ⊢
    by_cases h1 : x.toNat < y.toNat
    · simp [h1]
    · by_cases h2 : y.toNat < z.toNat
      · simp [h2]
      · by_cases h3 : y.toNat < x.toNat
        · have h4 : ¬ x.toNat < z.toNat := by omega
          have h5 : z.toNat < x.toNat := by omega
          simp [h4, h5] at h
        · by_cases h6 : z.toNat < y.toNat
          · have h4 : ¬ x.toNat < z.toNat := by omega
            have h5 : z.toNat < x.toNat := by omega
            simp [h4, h5] at h
          · have h4 : ¬ x.toNat < z.toNat := by omega
            have h5 : ¬ z.toNat < x.toNat := by omega
            simp only [h4, h5, if_false] at h
            simp only [h1, h2, h3, h6, if_false]
            exact strLess_cotrans xs ys zs h

instance : IsTotal Str strLe :=
  ⟨fun a b => by
    unfold strLe
    cases h : strLess b a with
    | false => exact Or.inl rfl
    | true => exact Or.inr (strLess_asymm b a h)⟩

instance : IsTrans Str strLe :=
  ⟨fun a b c hab hbc => by
    unfold strLe at *
    cases h : strLess c a with
    | false => rfl
    | true =>
      rcases strLess_cotrans c b a h with h1 | h1
      · rw [h1] at hbc; cases hbc
      · rw [h1] at hab; cases hab⟩

instance : IsAntisymm Str strLe :=
  ⟨fun a b hab hba => strLess_trichotomy a b hba hab⟩

/-- What `sort.Strings` returns: the one ascending rearrangement of its input. -/
theorem sortStrings_unique (l sorted : List Str) (hperm : sorted.Perm l)
    (hsorted : sorted.Sorted strLe) : sortStrings l = sorted :=
  List.eq_of_perm_of_sorted ((List.perm_insertionSort strLe l).trans hperm.symm)
    (List.sorted_insertionSort strLe l) hsorted

/-- The result of `sort.Strings` does not depend on the order of its input. -/
theorem sortStrings_perm (l1 l2 : List Str) (h : l1.Perm l2) :
    sortStrings l1 = sortStrings l2 :=
  sortStrings_unique l1 _ ((List.perm_insertionSort strLe l2).trans h.symm)
    (List.sorted_insertionSort strLe l2)

instance : IsTotal (Str × Str) keyLe := ⟨fun a b => IsTotal.total (r := strLe) a.1 b.1⟩

instance : IsTrans (Str × Str) keyLe :=
  ⟨fun _ _ _ hab hbc => IsTrans.trans (r := strLe) _ _ _ hab hbc⟩

/-- A common beginning does not matter for the order. -/
theorem strLess_append_left (p a b : Str) : strLess (p ++ a) (p ++ b) = strLess a b := by
  induction p with
  | nil => rfl
  | cons x xs ih => simp [strLess, ih]

/-- The order of two keys is the order of the keys followed by `=` and
anything, provided that where the first key is a beginning of the second, the
second goes on with a character above `=`. -/
theorem strLess_key_eq : ∀ (k1 k2 s1 s2 : Str), strLess k1 k2 = true →
    (HasPrefix k2 k1 = true → ∀ c ∈ (k2.drop k1.length).head?, '='.toNat < c.toNat) →
    strLess (k1 ++ '=' :: s1) (k2 ++ '=' :: s2) = true
  | [], [], _, _, h, _ => by simp [strLess] at h
  | _ :: _, [], _, _, h, _ => by simp [strLess] at h
  | [], c :: rest, s1, s2, _, hc => by
    have := hc (by simp [HasPrefix]) c (by simp)
    simp only [List.nil_append, List.cons_append, strLess]
    rw [if_pos this]
  | x :: xs, y :: ys, s1, s2, h, hc => by
    simp only [strLess] at h
    simp only [List.cons_append, strLess]
    by_cases h1 : x.toNat < y.toNat
    · simp [h1]
    · by_cases h2 : y.toNat < x.toNat
      · simp [h1, h2] at h
      · simp only [h1, h2, if_false] at h ⊢
        have hxy : x = y := by
          have : x.toNat = y.toNat := by omega
          rw [← Char.ofNat_toNat x, ← Char.ofNat_toNat y, this]
        refine strLess_key_eq xs ys s1 s2 h (fun hp c hcm => hc ?_ c ?_)
        · simpa [HasPrefix, hxy] using hp
        · simpa using hcm

/-- The order of two rendered lines with different keys is the order of the
keys, under the proviso of `strLess_key_eq`. -/
theorem renderLine_le (a b : Str × Str) (hne : a.1 ≠ b.1) (hle : keyLe a b)
    (hc : HasPrefix b.1 a.1 = true → ∀ c ∈ (b.1.drop a.1.length).head?, '='.toNat < c.toNat) :
    strLe (renderLine a) (renderLine b) := by
  have hlt : strLess a.1 b.1 = true := by
    cases h : strLess a.1 b.1 with
    | true => rfl
    | false => exact absurd (strLess_trichotomy a.1 b.1 h hle) hne
  have h1 : renderLine a = "export ".toList ++ (a.1 ++ '=' :: ('"' :: (a.2 ++ ['"']))) := by
    simp [renderLine]
  have h2 : renderLine b = "export ".toList ++ (b.1 ++ '=' :: ('"' :: (b.2 ++ ['"']))) := by
    simp [renderLine]
  unfold strLe
  rw [h1, h2, strLess_append_left]
  exact strLess_asymm _ _ (strLess_key_eq _ _ _ _ hlt hc)

/-! ### The comment parser: what a line can do -/

/-- A line either makes the parser panic, or leaves the map alone, or writes
one key made of the environment prefix and a non-empty name. -/
theorem parseLine_cases (o : Options) (m : EnvMap) (line : Str) :
    parseLine o m line = none ∨ parseLine o m line = some m
    ∨ ∃ name v, name ≠ [] ∧ parseLine o m line = some (m.set (o.EnvVarNamePrefix ++ name) v) := by
  unfold parseLine
  simp only []
  split_ifs with h1
  · exact Or.inr (Or.inl rfl)
  · split
    · rename_i p0 p1 hsplit
      split_ifs with h2 h3
      · exact Or.inr (Or.inl rfl)
      · split
        · exact Or.inl rfl
        · exact Or.inr (Or.inr ⟨_, _, h2, rfl⟩)
      · exact Or.inr (Or.inr ⟨_, _, h2, rfl⟩)
    · exact Or.inr (Or.inl rfl)

/-- A key that is not the environment prefix followed by a non-empty name is
not touched by a line. -/
theorem parseLine_frame (o : Options) (m m1 : EnvMap) (line k : Str)
    (hk : ∀ name, name ≠ [] → k ≠ o.EnvVarNamePrefix ++ name)
    (h : parseLine o m line = some m1) : m1.get k = m.get k := by
  rcases parseLine_cases o m line with h0 | h0 | ⟨name, v, hname, h0⟩
  · rw [h0] at h; cases h
  · rw [h0] at h; cases h; rfl
  · rw [h0] at h; cases h
    exact EnvMap.get_set_ne m _ v k (hk name hname)

/-- The frame property of a line, for all the lines of a comment. -/
theorem parseLines_frame (o : Options) (k : Str)
    (hk : ∀ name, name ≠ [] → k ≠ o.EnvVarNamePrefix ++ name) (lines : List Str) :
    ∀ m m1 : EnvMap, parseLines o m lines = some m1 → m1.get k = m.get k := by
  induction lines with
  | nil =>
    intro m m1 h
    simp only [parseLines] at h
    cases h; rfl
  | cons line rest ih =>
    intro m m1 h
    simp only [parseLines] at h
    cases hl : parseLine o m line with
    | none => rw [hl] at h; cases h
    | some m2 =>
      rw [hl] at h
      rw [ih m2 m1 h, parseLine_frame o m m2 line k hk hl]

/-- The frame property, for all the comments of a pull request. -/
theorem parseAll_frame (o : Options) (k : Str)
    (hk : ∀ name, name ≠ [] → k ≠ o.EnvVarNamePrefix ++ name) (comments : List Comment) :
    ∀ m m1 : EnvMap, parseAll o m comments = some m1 → m1.get k = m.get k := by
  induction comments with
  | nil =>
    intro m m1 h
    simp only [parseAll] at h
    cases h; rfl
  | cons c rest ih =>
    intro m m1 h
    simp only [parseAll] at h
    cases hl : parseComments o m c.Body with
    | none => rw [hl] at h; cases h
    | some m2 =>
      rw [hl] at h
      rw [ih m2 m1 h]
      exact parseLines_frame o k hk _ m m2 hl

/-- A line that, once trimmed, does not start with the comment prefix, or has
no `=` after it, or has nothing but white space between the prefix and the
first `=`, leaves the map alone. -/
theorem parseLine_skip (o : Options) (m : EnvMap) (line : Str)
    (h : HasPrefix (TrimSpace line) o.CommentPrefix = false
      ∨ '=' ∉ (TrimSpace line).drop o.CommentPrefix.length
      ∨ TrimSpace (((TrimSpace line).drop o.CommentPrefix.length).takeWhile
          (fun c => c != '=')) = []) :
    parseLine o m line = some m := by
  unfold parseLine
  simp only []
  by_cases h1 : TrimSpace line = [] ∨ HasPrefix (TrimSpace line) o.CommentPrefix = false
  · rw [if_pos h1]
  · rw [if_neg h1]
    have hp : HasPrefix (TrimSpace line) o.CommentPrefix = true := by
      by_contra hc
      exact h1 (Or.inr (by simpa using hc))
    have htp : TrimPrefix (TrimSpace line) o.CommentPrefix
        = (TrimSpace line).drop o.CommentPrefix.length := by
      simp [TrimPrefix, hp]
    rw [htp]
    generalize hrest : (TrimSpace line).drop o.CommentPrefix.length = rest at h
    by_cases heq : '=' ∈ rest
    · obtain ⟨b, hb, -⟩ := exists_split_at_first rest '=' heq
      have hempty : TrimSpace (rest.takeWhile (fun c => c != '=')) = [] := by
        rcases h with h | h | h
        · rw [hp] at h; cases h
        · exact absurd heq h
        · exact h
      have hsp := (TrimSpace_eq_nil_iff _).1 hempty
      have htrim : TrimSpace rest = '=' :: b.rdropWhile isSpace := by
        rw [hb, TrimSpace_split _ _ _ (by decide), List.dropWhile_eq_nil_iff.2 hsp]
        rfl
      have hsplit : SplitN2 ('=' :: b.rdropWhile isSpace) '=' = [[], b.rdropWhile isSpace] :=
        SplitN2_append [] _ '=' (by simp)
      rw [htrim, hsplit]
      rfl
    · have hno : '=' ∉ TrimSpace rest := fun hm => heq (mem_of_mem_TrimSpace _ _ hm)
      rw [SplitN2_not_mem _ _ hno]

/-- Lines that each leave the map alone leave the map alone. -/
theorem parseLines_skip (o : Options) (m : EnvMap) (lines : List Str)
    (h : ∀ line ∈ lines, parseLine o m line = some m) : parseLines o m lines = some m := by
  induction lines with
  | nil => rfl
  | cons line rest ih =>
    simp only [parseLines]
    rw [h line (List.mem_cons_self _ _)]
    exact ih (fun l hl => h l (List.mem_cons_of_mem _ hl))

/-- A line acts through what it trims to. -/
theorem parseLine_congr (o : Options) (m : EnvMap) (l1 l2 : Str)
    (h : TrimSpace l1 = TrimSpace l2) : parseLine o m l1 = parseLine o m l2 := by
  unfold parseLine
  rw [h]

/-- A line of white space leaves the map alone. -/
theorem parseLine_blank (o : Options) (m : EnvMap) (line : Str)
    (h : ∀ c ∈ line, isSpace c = true) : parseLine o m line = some m := by
  unfold parseLine
  simp only []
  rw [if_pos (Or.inl ((TrimSpace_eq_nil_iff line).2 h))]

/-- White space in front of a comment body changes nothing. -/
theorem parseComments_cons_space (o : Options) (m : EnvMap) (c : Char) (s : Str)
    (hc : isSpace c = true) : parseComments o m (c :: s) = parseComments o m s := by
  unfold parseComments
  by_cases hn : c = '\n'
  · subst hn
    simp only [Split, if_true, parseLines]
    rw [parseLine_blank o m [] (by simp)]
  · cases hsp : Split s '\n' with
    | nil => exact absurd hsp (Split_ne_nil s '\n')
    | cons l ls =>
      simp only [Split, if_neg hn, hsp, parseLines]
      rw [parseLine_congr o m (c :: l) l (TrimSpace_cons_space c l hc)]

/-- White space in front of a comment body changes nothing (any amount). -/
theorem parseComments_append_space (o : Options) (m : EnvMap) (ws s : Str)
    (hws : ∀ c ∈ ws, isSpace c = true) : parseComments o m (ws ++ s) = parseComments o m s := by
  induction ws with
  | nil => rfl
  | cons c cs ih =>
    rw [List.cons_append, parseComments_cons_space o m c _ (hws c (List.mem_cons_self _ _))]
    exact ih (fun x hx => hws x (List.mem_cons_of_mem _ hx))

/-- Removing the quotes: for a value of at least two characters that starts
with a double quote, the slice `value[1 : len(value)-1]` is the value without
its first and last character. -/
theorem slice_quotes (v : Str) (hp : HasPrefix v ['"'] = true) (hne : v ≠ ['"']) :
    slice v 1 ((v.length : Int) - 1) = some v.tail.dropLast := by
  cases v with
  | nil => simp [HasPrefix] at hp
  | cons x t =>
    cases t with
    | nil =>
      have hx : '"' = x := by simpa [HasPrefix] using hp
      exact absurd (by rw [hx]) hne
    | cons y t =>
      have h1 : (0 : Int) ≤ 1 ∧ (1 : Int) ≤ ((x :: y :: t).length : Int) - 1
          ∧ ((x :: y :: t).length : Int) - 1 ≤ ((x :: y :: t).length : Int) := by
        simp only [List.length_cons]
        omega
      have h2 : (((x :: y :: t).length : Int) - 1).toNat = t.length + 1 := by
        simp only [List.length_cons]
        omega
      unfold slice
      rw [if_pos h1, h2]
      simp [List.dropLast_eq_take]

/-- A directive line: the comment prefix (which does not start with white
space), a name without `=`, an `=`, a value and trailing white space.  The
line writes the trimmed value, without its quotes when it has them, under the
environment prefix followed by the trimmed name. -/
theorem parseLine_directive (o : Options) (m : EnvMap) (name value l : Str)
    (hl : ∀ c ∈ l, isSpace c = true)
    (hpre : ∀ c ∈ o.CommentPrefix.head?, isSpace c = false)
    (hneq : '=' ∉ name) (hname : TrimSpace name ≠ [])
    (hquote : TrimSpace value ≠ ['"']) :
    parseLine o m (o.CommentPrefix ++ (name ++ '=' :: (value ++ l)))
      = some (m.set (o.EnvVarNamePrefix ++ TrimSpace name)
          (if HasPrefix (TrimSpace value) ['"'] = true ∧ HasSuffix (TrimSpace value) ['"'] = true
            then (TrimSpace value).tail.dropLast else TrimSpace value)) := by
  have hsp : isSpace '=' = false := by decide
  -- the trimmed line is the prefix, a name part, `=`, and the value trimmed on the right
  have htext : ∃ N, TrimSpace (o.CommentPrefix ++ (name ++ '=' :: (value ++ l)))
        = o.CommentPrefix ++ (N ++ '=' :: value.rdropWhile isSpace)
      ∧ TrimSpace N = TrimSpace name ∧ '=' ∉ N := by
    have hline : o.CommentPrefix ++ (name ++ '=' :: (value ++ l))
        = (o.CommentPrefix ++ name) ++ '=' :: (value ++ l) := by simp
    rw [hline, TrimSpace_split _ _ _ hsp, rdropWhile_append_of_all _ _ _ hl]
    cases hpfx : o.CommentPrefix with
    | nil =>
      refine ⟨name.dropWhile isSpace, by simp, TrimSpace_dropWhile name, ?_⟩
      exact fun h => hneq (List.dropWhile_subset isSpace h)
    | cons x xs =>
      have hx : isSpace x = false := hpre x (by simp [hpfx])
      refine ⟨name, ?_, rfl, hneq⟩
      simp [hx]
  obtain ⟨N, htext, hN, hNeq⟩ := htext
  have hne : ¬ (o.CommentPrefix ++ (N ++ '=' :: value.rdropWhile isSpace) = []
      ∨ HasPrefix (o.CommentPrefix ++ (N ++ '=' :: value.rdropWhile isSpace))
          o.CommentPrefix = false) := by
    simp [HasPrefix]
  have htp : TrimPrefix (o.CommentPrefix ++ (N ++ '=' :: value.rdropWhile isSpace))
      o.CommentPrefix = N ++ '=' :: value.rdropWhile isSpace := by
    simp [TrimPrefix, HasPrefix]
  have hexpr : TrimSpace (N ++ '=' :: value.rdropWhile isSpace)
      = N.dropWhile isSpace ++ '=' :: value.rdropWhile isSpace := by
    rw [TrimSpace_split _ _ _ hsp, List.rdropWhile_idempotent]
  have hsplit : SplitN2 (N.dropWhile isSpace ++ '=' :: value.rdropWhile isSpace) '='
      = [N.dropWhile isSpace, value.rdropWhile isSpace] :=
    SplitN2_append _ _ '=' (fun h => hNeq (List.dropWhile_subset isSpace h))
  have hn : TrimSpace (N.dropWhile isSpace) = TrimSpace name := by
    rw [TrimSpace_dropWhile, hN]
  have hv : TrimSpace (value.rdropWhile isSpace) = TrimSpace value := TrimSpace_rdropWhile value
  unfold parseLine
  simp only []
  rw [htext, if_neg hne, htp, hexpr, hsplit]
  simp only []
  rw [hn, hv, if_neg hname]
  by_cases hq : HasPrefix (TrimSpace value) ['"'] = true ∧ HasSuffix (TrimSpace value) ['"'] = true
  · rw [if_pos hq, if_pos hq, slice_quotes _ hq.1 hquote]
  · rw [if_neg hq, if_neg hq]

/-! ### Labels and fixed keys -/

/-- The four keys of the map literal in `displayPullRequest`. -/
theorem fixedVars_get (pr : PullRequest) :
    (fixedVars pr).get "PR_BASE_SHA".toList = some pr.Base.Sha
    ∧ (fixedVars pr).get "PR_BASE_REF".toList = some pr.Base.Ref
    ∧ (fixedVars pr).get "PR_HEAD_REF".toList = some pr.Head.Ref
    ∧ (fixedVars pr).get "PR_HEAD_SHA".toList = some pr.Head.Sha :=
  ⟨rfl, rfl, rfl, rfl⟩

/-- A label key is none of the four fixed keys: it differs in the fourth
character. -/
theorem labelKey_ne_fixed (tbl : Char → Char) (name k : Str)
    (hk : k ∈ ["PR_BASE_SHA".toList, "PR_BASE_REF".toList, "PR_HEAD_REF".toList,
      "PR_HEAD_SHA".toList]) : k ≠ labelKey tbl name := by
  intro h
  have h4 : k.take 4 = "PR_L".toList := by
    rw [h]
    simp [labelKey]
  simp only [List.mem_cons, List.mem_singleton, List.not_mem_nil, or_false] at hk
  rcases hk with rfl | rfl | rfl | rfl <;> exact absurd h4 (by decide)

/-- Adding the labels leaves every key that is not a label key as it was. -/
theorem addLabels_get (tbl : Char → Char) (k : Str) (labels : List Label)
    (hk : ∀ name, k ≠ labelKey tbl name) :
    ∀ e : EnvMap, (addLabels tbl e labels).get k = e.get k := by
  induction labels with
  | nil => intro e; rfl
  | cons l rest ih =>
    intro e
    simp only [addLabels]
    rw [ih, EnvMap.get_set_ne _ _ _ _ (hk l.Name)]

/-- C10, as stated, fails: with `--env-prefix PR_` (not empty) the comment
`/jx-var BASE_SHA=evil` writes the key `PR_BASE_SHA`, which then no longer holds
the base SHA `abc123` of the pull request. -/
theorem comment_overwrites_fixed_key :
    collidingOptions.EnvVarNamePrefix ≠ []
    ∧ (parseAll collidingOptions
          (addLabels (fun c => c) (fixedVars examplePR) examplePR.Labels)
          [{ Body := "/jx-var BASE_SHA=evil".toList }]).bind
        (fun m1 => m1.get "PR_BASE_SHA".toList) = some "evil".toList
    ∧ examplePR.Base.Sha = "abc123".toList := by
  decide

/-- C10, amended: when the environment prefix is not a proper prefix of a fixed
key (it is not a prefix of it, or is the whole key), no comment can write that
key: whenever the comments are parsed to the end, the four fixed keys hold the
base and head SHA and ref of the pull request, for every comment prefix, every
label set and every list of comments. -/
theorem comments_keep_fixed_keys (o : Options) (tbl : Char → Char) (pr : PullRequest)
    (comments : List Comment) (m1 : EnvMap)
    (hpre : ∀ k ∈ ["PR_BASE_SHA".toList, "PR_BASE_REF".toList, "PR_HEAD_REF".toList,
      "PR_HEAD_SHA".toList], HasPrefix k o.EnvVarNamePrefix = true → o.EnvVarNamePrefix = k)
    (hparse : parseAll o (addLabels tbl (fixedVars pr) pr.Labels) comments = some m1) :
    m1.get "PR_BASE_SHA".toList = some pr.Base.Sha
    ∧ m1.get "PR_BASE_REF".toList = some pr.Base.Ref
    ∧ m1.get "PR_HEAD_REF".toList = some pr.Head.Ref
    ∧ m1.get "PR_HEAD_SHA".toList = some pr.Head.Sha := by
  have key : ∀ k ∈ ["PR_BASE_SHA".toList, "PR_BASE_REF".toList, "PR_HEAD_REF".toList,
      "PR_HEAD_SHA".toList], m1.get k = (fixedVars pr).get k := by
    intro k hk
    have hne : ∀ name, name ≠ [] → k ≠ o.EnvVarNamePrefix ++ name := by
      intro name hname h
      have hp : HasPrefix k o.EnvVarNamePrefix = true := by
        rw [h]
        simp [HasPrefix]
      have := hpre k hk hp
      rw [h] at this
      exact hname (by simpa using this.symm)
    rw [parseAll_frame o k hne comments _ m1 hparse]
    exact addLabels_get tbl k pr.Labels (fun name => labelKey_ne_fixed tbl name k hk) _
  obtain ⟨h1, h2, h3, h4⟩ := fixedVars_get pr
  refine ⟨?_, ?_, ?_, ?_⟩
  · rw [key _ (by simp), h1]
  · rw [key _ (by simp), h2]
  · rw [key _ (by simp), h3]
  · rw [key _ (by simp), h4]

/-- Witness of the amended C10: the default environment prefix `PR_COMMENT_`
and a comment that tries to set `BASE_SHA`. -/
theorem comments_keep_fixed_keys_witness :
    (∀ k ∈ ["PR_BASE_SHA".toList, "PR_BASE_REF".toList, "PR_HEAD_REF".toList,
      "PR_HEAD_SHA".toList],
      HasPrefix k commentOptions.EnvVarNamePrefix = true → commentOptions.EnvVarNamePrefix = k)
    ∧ parseAll commentOptions (addLabels (fun c => c) (fixedVars examplePR) examplePR.Labels)
        [{ Body := "/jx-var BASE_SHA=evil".toList }]
      = some [("PR_BASE_SHA".toList, "abc123".toList), ("PR_BASE_REF".toList, "main".toList),
          ("PR_HEAD_REF".toList, "feature-1".toList), ("PR_HEAD_SHA".toList, "def456".toList),
          ("PR_COMMENT_BASE_SHA".toList, "evil".toList)]
    ∧ (EnvMap.get [("PR_BASE_SHA".toList, "abc123".toList), ("PR_BASE_REF".toList, "main".toList),
          ("PR_HEAD_REF".toList, "feature-1".toList), ("PR_HEAD_SHA".toList, "def456".toList),
          ("PR_COMMENT_BASE_SHA".toList, "evil".toList)] "PR_BASE_SHA".toList
        = some examplePR.Base.Sha
      ∧ EnvMap.get [("PR_BASE_SHA".toList, "abc123".toList), ("PR_BASE_REF".toList, "main".toList),
          ("PR_HEAD_REF".toList, "feature-1".toList), ("PR_HEAD_SHA".toList, "def456".toList),
          ("PR_COMMENT_BASE_SHA".toList, "evil".toList)] "PR_BASE_REF".toList
        = some examplePR.Base.Ref
      ∧ EnvMap.get [("PR_BASE_SHA".toList, "abc123".toList), ("PR_BASE_REF".toList, "main".toList),
          ("PR_HEAD_REF".toList, "feature-1".toList), ("PR_HEAD_SHA".toList, "def456".toList),
          ("PR_COMMENT_BASE_SHA".toList, "evil".toList)] "PR_HEAD_REF".toList
        = some examplePR.Head.Ref
      ∧ EnvMap.get [("PR_BASE_SHA".toList, "abc123".toList), ("PR_BASE_REF".toList, "main".toList),
          ("PR_HEAD_REF".toList, "feature-1".toList), ("PR_HEAD_SHA".toList, "def456".toList),
          ("PR_COMMENT_BASE_SHA".toList, "evil".toList)] "PR_HEAD_SHA".toList
        = some examplePR.Head.Sha) :=
  ⟨by decide, by decide,
    comments_keep_fixed_keys commentOptions (fun c => c) examplePR
      [{ Body := "/jx-var BASE_SHA=evil".toList }] _ (by decide) (by decide)⟩

/-- The keys of the map literal are distinct. -/
theorem fixedVars_nodup (pr : PullRequest) : (fixedVars pr).keys.Nodup := by
  have h : (fixedVars pr).keys = ["PR_BASE_SHA".toList, "PR_BASE_REF".toList,
      "PR_HEAD_REF".toList, "PR_HEAD_SHA".toList] := rfl
  rw [h]
  decide

/-- Adding the labels keeps the keys distinct. -/
theorem addLabels_nodup (tbl : Char → Char) (labels : List Label) :
    ∀ e : EnvMap, e.keys.Nodup → (addLabels tbl e labels).keys.Nodup := by
  induction labels with
  | nil => intro e he; exact he
  | cons l rest ih =>
    intro e he
    simp only [addLabels]
    exact ih _ (EnvMap.nodup_keys_set e _ _ he)

/-- What the map reads after the labels are added: `true` under a label key,
and what it read before under any other key. -/
theorem addLabels_get_full (tbl : Char → Char) (k : Str) (labels : List Label) :
    ∀ e : EnvMap, (addLabels tbl e labels).get k
      = if ∃ label ∈ labels, k = labelKey tbl label.Name then some "true".toList
        else e.get k := by
  induction labels with
  | nil => intro e; simp [addLabels]
  | cons l rest ih =>
    intro e
    simp only [addLabels]
    rw [ih]
    by_cases h1 : ∃ label ∈ rest, k = labelKey tbl label.Name
    · have h2 : ∃ label ∈ l :: rest, k = labelKey tbl label.Name := by
        obtain ⟨x, hx, hk⟩ := h1
        exact ⟨x, List.mem_cons_of_mem _ hx, hk⟩
      rw [if_pos h1, if_pos h2]
    · rw [if_neg h1]
      by_cases h3 : k = labelKey tbl l.Name
      · have h2 : ∃ label ∈ l :: rest, k = labelKey tbl label.Name :=
          ⟨l, List.mem_cons_self _ _, h3⟩
        rw [if_pos h2, h3, EnvMap.get_set_self]
      · have h2 : ¬ ∃ label ∈ l :: rest, k = labelKey tbl label.Name := by
          rintro ⟨x, hx, hk⟩
          rcases List.mem_cons.1 hx with h | h
          · exact h3 (h ▸ hk)
          · exact h1 ⟨x, h, hk⟩
        rw [if_neg h2, EnvMap.get_set_ne _ _ _ _ h3]

/-- The entries of the map literal. -/
theorem mem_fixedVars (pr : PullRequest) (k v : Str) :
    (k, v) ∈ fixedVars pr ↔
      (k = "PR_BASE_SHA".toList ∧ v = pr.Base.Sha) ∨ (k = "PR_BASE_REF".toList ∧ v = pr.Base.Ref)
      ∨ (k = "PR_HEAD_REF".toList ∧ v = pr.Head.Ref)
      ∨ (k = "PR_HEAD_SHA".toList ∧ v = pr.Head.Sha) := by
  simp [fixedVars]

/-- The entries of the map after the labels are added: the four fixed entries
and one entry `true` per label key. -/
theorem mem_addLabels (tbl : Char → Char) (pr : PullRequest) (k v : Str) :
    (k, v) ∈ addLabels tbl (fixedVars pr) pr.Labels ↔
      (k = "PR_BASE_SHA".toList ∧ v = pr.Base.Sha) ∨ (k = "PR_BASE_REF".toList ∧ v = pr.Base.Ref)
      ∨ (k = "PR_HEAD_REF".toList ∧ v = pr.Head.Ref)
      ∨ (k = "PR_HEAD_SHA".toList ∧ v = pr.Head.Sha)
      ∨ (∃ label ∈ pr.Labels, k = labelKey tbl label.Name ∧ v = "true".toList) := by
  rw [EnvMap.mem_iff_get _ (addLabels_nodup tbl pr.Labels _ (fixedVars_nodup pr)),
    addLabels_get_full]
  by_cases h : ∃ label ∈ pr.Labels, k = labelKey tbl label.Name
  · rw [if_pos h]
    obtain ⟨l, hl, hk⟩ := h
    have hfix : ∀ k0 ∈ ["PR_BASE_SHA".toList, "PR_BASE_REF".toList, "PR_HEAD_REF".toList,
        "PR_HEAD_SHA".toList], k ≠ k0 :=
      fun k0 hk0 e => labelKey_ne_fixed tbl l.Name k0 hk0 (e ▸ hk)
    constructor
    · intro hv
      have hv1 : v = "true".toList := (Option.some.inj hv).symm
      exact Or.inr (Or.inr (Or.inr (Or.inr ⟨l, hl, hk, hv1⟩)))
    · rintro (⟨h1, -⟩ | ⟨h1, -⟩ | ⟨h1, -⟩ | ⟨h1, -⟩ | ⟨_, _, _, hv⟩)
      · exact absurd h1 (hfix _ (by simp))
      · exact absurd h1 (hfix _ (by simp))
      · exact absurd h1 (hfix _ (by simp))
      · exact absurd h1 (hfix _ (by simp))
      · rw [hv]
  · rw [if_neg h, ← EnvMap.mem_iff_get _ (fixedVars_nodup pr), mem_fixedVars]
    constructor
    · rintro (h1 | h1 | h1 | h1)
      · exact Or.inl h1
      · exact Or.inr (Or.inl h1)
      · exact Or.inr (Or.inr (Or.inl h1))
      · exact Or.inr (Or.inr (Or.inr (Or.inl h1)))
    · rintro (h1 | h1 | h1 | h1 | ⟨l, hl, hk, -⟩)
      · exact Or.inl h1
      · exact Or.inr (Or.inl h1)
      · exact Or.inr (Or.inr (Or.inl h1))
      · exact Or.inr (Or.inr (Or.inr h1))
      · exact absurd ⟨l, hl, hk⟩ h

/-- Upper-casing does not produce `/`, `:` or `-` from another character, as
long as the case table does not. -/
theorem unicodeToUpper_not_separator (tbl : Char → Char) (x : Char)
    (htbl : ∀ c, 0x7F < c.toNat → tbl c ≠ '/' ∧ tbl c ≠ ':' ∧ tbl c ≠ '-')
    (hx : x ≠ '/' ∧ x ≠ ':' ∧ x ≠ '-') :
    unicodeToUpper tbl x ≠ '/' ∧ unicodeToUpper tbl x ≠ ':' ∧ unicodeToUpper tbl x ≠ '-' := by
  unfold unicodeToUpper
  by_cases h1 : x.toNat ≤ 0x7F
  · rw [if_pos h1]
    by_cases h2 : 'a'.toNat ≤ x.toNat ∧ x.toNat ≤ 'z'.toNat
    · rw [if_pos h2]
      have ha : 'a'.toNat = 97 := rfl
      have hz : 'z'.toNat = 122 := rfl
      rw [ha, hz] at h2
      obtain ⟨h3, h4⟩ := h2
      generalize x.toNat = n at h3 h4
      interval_cases n <;> decide
    · rw [if_neg h2]
      exact hx
  · rw [if_neg h1]
    exact htbl x (by omega)

/-- After the three replacements no `/`, `:` or `-` is left. -/
theorem ReplaceAll_separators (name : Str) (c : Char)
    (hc : c ∈ ReplaceAll (ReplaceAll (ReplaceAll name '/' '_') ':' '_') '-' '_') :
    c ≠ '/' ∧ c ≠ ':' ∧ c ≠ '-' := by
  simp only [ReplaceAll, List.map_map, List.mem_map, Function.comp] at hc
  obtain ⟨x, -, hx⟩ := hc
  rw [← hx]
  by_cases h1 : x = '/'
  · rw [h1]; decide
  · by_cases h2 : x = ':'
    · rw [h2]; decide
    · by_cases h3 : x = '-'
      · rw [h3]; decide
      · simp only [h1, h2, h3, if_false]
        exact ⟨h1, h2, h3⟩

/-- A label key holds no `/`, `:` or `-`. -/
theorem labelKey_separators (tbl : Char → Char) (name : Str)
    (htbl : ∀ c, 0x7F < c.toNat → tbl c ≠ '/' ∧ tbl c ≠ ':' ∧ tbl c ≠ '-') :
    ∀ c ∈ labelKey tbl name, c ≠ '/' ∧ c ≠ ':' ∧ c ≠ '-' := by
  intro c hc
  unfold labelKey at hc
  simp only [] at hc
  rcases List.mem_append.1 hc with h | h
  · have hall : ∀ x ∈ "PR_LABEL_".toList, x ≠ '/' ∧ x ≠ ':' ∧ x ≠ '-' := by decide
    exact hall c h
  · unfold ToUpper at h
    obtain ⟨x, hx, hxc⟩ := List.mem_map.1 h
    rw [← hxc]
    exact unicodeToUpper_not_separator tbl x htbl (ReplaceAll_separators name x hx)

/-- The four fixed lines, sorted, whatever the values are and in whatever
order the map is visited. -/
theorem sortStrings_fixedVars (pr : PullRequest) (it : List (Str × Str))
    (hit : it.Perm (fixedVars pr)) :
    sortStrings (it.map renderLine)
      = [renderLine ("PR_BASE_REF".toList, pr.Base.Ref),
         renderLine ("PR_BASE_SHA".toList, pr.Base.Sha),
         renderLine ("PR_HEAD_REF".toList, pr.Head.Ref),
         renderLine ("PR_HEAD_SHA".toList, pr.Head.Sha)] := by
  apply sortStrings_unique
  · have h1 : ([("PR_BASE_REF".toList, pr.Base.Ref), ("PR_BASE_SHA".toList, pr.Base.Sha),
        ("PR_HEAD_REF".toList, pr.Head.Ref), ("PR_HEAD_SHA".toList, pr.Head.Sha)] :
          List (Str × Str)).Perm (fixedVars pr) := List.Perm.swap _ _ _
    exact (h1.trans hit.symm).map renderLine
  · have h12 : strLe (renderLine ("PR_BASE_REF".toList, pr.Base.Ref))
        (renderLine ("PR_BASE_SHA".toList, pr.Base.Sha)) := by unfold strLe; rfl
    have h13 : strLe (renderLine ("PR_BASE_REF".toList, pr.Base.Ref))
        (renderLine ("PR_HEAD_REF".toList, pr.Head.Ref)) := by unfold strLe; rfl
    have h14 : strLe (renderLine ("PR_BASE_REF".toList, pr.Base.Ref))
        (renderLine ("PR_HEAD_SHA".toList, pr.Head.Sha)) := by unfold strLe; rfl
    have h23 : strLe (renderLine ("PR_BASE_SHA".toList, pr.Base.Sha))
        (renderLine ("PR_HEAD_REF".toList, pr.Head.Ref)) := by unfold strLe; rfl
    have h24 : strLe (renderLine ("PR_BASE_SHA".toList, pr.Base.Sha))
        (renderLine ("PR_HEAD_SHA".toList, pr.Head.Sha)) := by unfold strLe; rfl
    have h34 : strLe (renderLine ("PR_HEAD_REF".toList, pr.Head.Ref))
        (renderLine ("PR_HEAD_SHA".toList, pr.Head.Sha)) := by unfold strLe; rfl
    simp only [List.Sorted, List.pairwise_cons, List.mem_cons, List.mem_singleton,
      List.not_mem_nil, List.Pairwise.nil, and_true]
    refine ⟨?_, ?_, ?_, ?_⟩
    · rintro b (rfl | rfl | rfl | h)
      · exact h12
      · exact h13
      · exact h14
      · exact absurd h id
    · rintro b (rfl | rfl | h)
      · exact h23
      · exact h24
      · exact absurd h id
    · rintro b (rfl | h)
      · exact h34
      · exact absurd h id
    · intro b h
      exact absurd h id

/-- C4: with comments disabled, whatever order the map is visited in, the
generated text is the sorted lines `export KEY="VALUE"`, joined by newlines, of
a map with distinct keys whose entries are exactly: the four fixed keys with
the base and head SHA and ref of the pull request, and, for each label,
`PR_LABEL_` followed by the upper-cased name with `/`, `:`, `-` replaced by `_`,
with value `true`.  No label key holds `/`, `:` or `-` (the Unicode case table
produces none).  Without its labels the pull request gives the four fixed
lines, in the order BASE_REF, BASE_SHA, HEAD_REF, HEAD_SHA; `team/x` and
`needs-ci` give the keys `PR_LABEL_TEAM_X` and `PR_LABEL_NEEDS_CI`. -/
theorem generatedText_without_comments (o : Options) (tbl : Char → Char)
    (range : EnvMap → List (Str × Str)) (listComments : Except Str (List Comment))
    (pr : PullRequest)
    (hno : o.UseComments = false)
    (hrange : ∀ e, (range e).Perm e)
    (htbl : ∀ c, 0x7F < c.toNat → tbl c ≠ '/' ∧ tbl c ≠ ':' ∧ tbl c ≠ '-') :
    (∃ e : EnvMap,
      generatedText o tbl range listComments pr
        = some (Except.ok (Join (sortStrings (e.map renderLine)) "\n".toList))
      ∧ e.keys.Nodup
      ∧ ∀ k v, (k, v) ∈ e ↔
          (k = "PR_BASE_SHA".toList ∧ v = pr.Base.Sha)
          ∨ (k = "PR_BASE_REF".toList ∧ v = pr.Base.Ref)
          ∨ (k = "PR_HEAD_REF".toList ∧ v = pr.Head.Ref)
          ∨ (k = "PR_HEAD_SHA".toList ∧ v = pr.Head.Sha)
          ∨ (∃ label ∈ pr.Labels,
              k = "PR_LABEL_".toList ++ ToUpper tbl
                (ReplaceAll (ReplaceAll (ReplaceAll label.Name '/' '_') ':' '_') '-' '_')
              ∧ v = "true".toList))
    ∧ (∀ label ∈ pr.Labels,
        ∀ c ∈ "PR_LABEL_".toList ++ ToUpper tbl
            (ReplaceAll (ReplaceAll (ReplaceAll label.Name '/' '_') ':' '_') '-' '_'),
          c ≠ '/' ∧ c ≠ ':' ∧ c ≠ '-')
    ∧ generatedText o tbl range listComments { pr with Labels := [] }
        = some (Except.ok (Join
            [renderLine ("PR_BASE_REF".toList, pr.Base.Ref),
             renderLine ("PR_BASE_SHA".toList, pr.Base.Sha),
             renderLine ("PR_HEAD_REF".toList, pr.Head.Ref),
             renderLine ("PR_HEAD_SHA".toList, pr.Head.Sha)] "\n".toList))
    ∧ "PR_LABEL_".toList ++ ToUpper tbl
          (ReplaceAll (ReplaceAll (ReplaceAll "team/x".toList '/' '_') ':' '_') '-' '_')
        = "PR_LABEL_TEAM_X".toList
    ∧ "PR_LABEL_".toList ++ ToUpper tbl
          (ReplaceAll (ReplaceAll (ReplaceAll "needs-ci".toList '/' '_') ':' '_') '-' '_')
        = "PR_LABEL_NEEDS_CI".toList := by
  have htext : ∀ q : PullRequest, generatedText o tbl range listComments q
      = some (Except.ok (renderText range (addLabels tbl (fixedVars q) q.Labels))) := by
    intro q
    simp [generatedText, hno]
  refine ⟨⟨addLabels tbl (fixedVars pr) pr.Labels, ?_, ?_, ?_⟩, ?_, ?_, rfl, rfl⟩
  · rw [htext, renderText, sortStrings_perm _ _ ((hrange _).map renderLine)]
  · exact addLabels_nodup tbl pr.Labels _ (fixedVars_nodup pr)
  · exact fun k v => mem_addLabels tbl pr k v
  · exact fun label _ => labelKey_separators tbl label.Name htbl
  · rw [htext, renderText]
    simp only [addLabels]
    rw [sortStrings_fixedVars { pr with Labels := [] } _ (hrange _)]

/-- Witness of C4: the labels `team/x` and `needs-ci`, the map visited in
reverse order, the identity as case table above ASCII. -/
theorem generatedText_without_comments_witness :
    defaultOptions.UseComments = false
    ∧ (∀ e : EnvMap, e.reverse.Perm e)
    ∧ (∀ c : Char, 0x7F < c.toNat → c ≠ '/' ∧ c ≠ ':' ∧ c ≠ '-')
    ∧ (∀ label ∈ teamLabelsPR.Labels,
        ∀ c ∈ "PR_LABEL_".toList ++ ToUpper (fun c => c)
            (ReplaceAll (ReplaceAll (ReplaceAll label.Name '/' '_') ':' '_') '-' '_'),
          c ≠ '/' ∧ c ≠ ':' ∧ c ≠ '-')
    ∧ generatedText defaultOptions (fun c => c) List.reverse (Except.ok []) teamLabelsPR
        = some (Except.ok ("export PR_BASE_REF=\"main\"\nexport PR_BASE_SHA=\"abc123\"\n"
            ++ "export PR_HEAD_REF=\"feature-1\"\nexport PR_HEAD_SHA=\"def456\"\n"
            ++ "export PR_LABEL_NEEDS_CI=\"true\"\nexport PR_LABEL_TEAM_X=\"true\"").toList) :=
  have hsep : ∀ c : Char, 0x7F < c.toNat → c ≠ '/' ∧ c ≠ ':' ∧ c ≠ '-' := by
    intro c hc
    refine ⟨?_, ?_, ?_⟩ <;> (intro h; rw [h] at hc; exact absurd hc (by decide))
  ⟨rfl, fun e => List.reverse_perm e, hsep,
    (generatedText_without_comments defaultOptions (fun c => c) List.reverse (Except.ok [])
      teamLabelsPR rfl (fun e => List.reverse_perm e) hsep).2.1,
    by rfl⟩

/-- C1, as stated, fails: with the comment prefix ` /jx-var` (a leading
blank), the body ` /jx-var A=b` is a prefix followed by `A=b`, yet the line is
trimmed before it is compared with the prefix, so it is skipped and the map
stays empty: `PR_COMMENT_A` is not set. -/
theorem directive_with_blank_prefix_is_skipped :
    " /jx-var A=b".toList = blankPrefixOptions.CommentPrefix ++ " A=b".toList
    ∧ parseComments blankPrefixOptions [] " /jx-var A=b".toList = some []
    ∧ (parseComments blankPrefixOptions [] " /jx-var A=b".toList).bind
        (fun m1 => m1.get "PR_COMMENT_A".toList) = none := by
  decide

/-- C1, amended: let the comment prefix contain no newline and not start with
white space, and let the body be white space, the prefix, NAME, `=`, VALUE and
white space, where NAME has no `=`, NAME and VALUE have no newline, NAME is not
empty once trimmed and VALUE trimmed is not the single character `"`.  Then
`parseComments` returns the map in which the environment prefix followed by the
trimmed NAME holds the trimmed VALUE, without its first and last character when
it begins and ends with a double quote and unchanged otherwise, and in which
every other key reads as before.  VALUE is everything after the first `=`. -/
theorem parseComments_directive (o : Options) (envVars : EnvMap) (ws1 ws2 name value : Str)
    (hws1 : ∀ c ∈ ws1, isSpace c = true) (hws2 : ∀ c ∈ ws2, isSpace c = true)
    (hpre : ∀ c ∈ o.CommentPrefix.head?, isSpace c = false)
    (hpnl : '\n' ∉ o.CommentPrefix) (hnnl : '\n' ∉ name) (hvnl : '\n' ∉ value)
    (hneq : '=' ∉ name) (hname : TrimSpace name ≠ [])
    (hquote : TrimSpace value ≠ ['"']) :
    parseComments o envVars (ws1 ++ o.CommentPrefix ++ name ++ ['='] ++ value ++ ws2)
      = some (envVars.set (o.EnvVarNamePrefix ++ TrimSpace name)
          (if HasPrefix (TrimSpace value) ['"'] = true ∧ HasSuffix (TrimSpace value) ['"'] = true
            then (TrimSpace value).tail.dropLast else TrimSpace value))
    ∧ (envVars.set (o.EnvVarNamePrefix ++ TrimSpace name)
          (if HasPrefix (TrimSpace value) ['"'] = true ∧ HasSuffix (TrimSpace value) ['"'] = true
            then (TrimSpace value).tail.dropLast else TrimSpace value)).get
        (o.EnvVarNamePrefix ++ TrimSpace name)
      = some (if HasPrefix (TrimSpace value) ['"'] = true
            ∧ HasSuffix (TrimSpace value) ['"'] = true
          then (TrimSpace value).tail.dropLast else TrimSpace value)
    ∧ ∀ k, k ≠ o.EnvVarNamePrefix ++ TrimSpace name →
        (envVars.set (o.EnvVarNamePrefix ++ TrimSpace name)
          (if HasPrefix (TrimSpace value) ['"'] = true ∧ HasSuffix (TrimSpace value) ['"'] = true
            then (TrimSpace value).tail.dropLast else TrimSpace value)).get k
        = envVars.get k := by
  refine ⟨?_, EnvMap.get_set_self _ _ _, fun k hk => EnvMap.get_set_ne _ _ _ k hk⟩
  have hbody : ws1 ++ o.CommentPrefix ++ name ++ ['='] ++ value ++ ws2
      = ws1 ++ ((o.CommentPrefix ++ (name ++ '=' :: value)) ++ ws2) := by simp
  have hcore : '\n' ∉ o.CommentPrefix ++ (name ++ '=' :: value) := by
    intro h
    rcases List.mem_append.1 h with h | h
    · exact hpnl h
    · rcases List.mem_append.1 h with h | h
      · exact hnnl h
      · rcases List.mem_cons.1 h with h | h
        · exact absurd h (by decide)
        · exact hvnl h
  obtain ⟨l, ls, hsplit, hsplit2⟩ := Split_append_left '\n' _ ws2 hcore
  have hmem := mem_of_mem_Split '\n' ws2
  rw [hsplit] at hmem
  have hl : ∀ c ∈ l, isSpace c = true :=
    fun c hc => hws2 c (hmem l (List.mem_cons_self _ _) c hc)
  have hls : ∀ line ∈ ls, ∀ c ∈ line, isSpace c = true :=
    fun line hline c hc => hws2 c (hmem line (List.mem_cons_of_mem _ hline) c hc)
  have hline : (o.CommentPrefix ++ (name ++ '=' :: value)) ++ l
      = o.CommentPrefix ++ (name ++ '=' :: (value ++ l)) := by simp
  rw [hbody, parseComments_append_space o envVars ws1 _ hws1]
  unfold parseComments
  rw [hsplit2, hline]
  simp only [parseLines]
  rw [parseLine_directive o envVars name value l hl hpre hneq hname hquote]
  exact parseLines_skip o _ ls (fun line hline => parseLine_blank o _ line (hls line hline))

/-- Witness of the amended C1: the default flags and the body
`  /jx-var CHEESE = "edam=1" `, followed by a newline. -/
theorem parseComments_directive_witness :
    (∀ c ∈ "  ".toList, isSpace c = true) ∧ (∀ c ∈ " \n".toList, isSpace c = true)
    ∧ (∀ c ∈ defaultOptions.CommentPrefix.head?, isSpace c = false)
    ∧ '\n' ∉ defaultOptions.CommentPrefix ∧ '\n' ∉ " CHEESE ".toList
    ∧ '\n' ∉ " \"edam=1\"".toList ∧ '=' ∉ " CHEESE ".toList
    ∧ TrimSpace " CHEESE ".toList ≠ [] ∧ TrimSpace " \"edam=1\"".toList ≠ ['"']
    ∧ parseComments defaultOptions [] "  /jx-var CHEESE = \"edam=1\" \n".toList
        = some [("PR_COMMENT_CHEESE".toList, "edam=1".toList)] :=
  ⟨by decide, by decide, by decide, by decide, by decide, by decide, by decide, by decide,
    by decide,
    (parseComments_directive defaultOptions [] "  ".toList " \n".toList " CHEESE ".toList
      " \"edam=1\"".toList (by decide) (by decide) (by decide) (by decide) (by decide)
      (by decide) (by decide) (by decide) (by decide)).1⟩

/-- C5, as stated, fails: for the labels `v1` and `v10` the keys are distinct
and `PR_LABEL_V1` is below `PR_LABEL_V10`, but the line of `PR_LABEL_V10` is
below the line of `PR_LABEL_V1` (after the common part, `0` is below `=`): the
generated text lists `PR_LABEL_V10` first, so sorting the rendered lines is not
sorting by key. -/
theorem rendered_order_differs_from_key_order :
    (addLabels (fun c => c) (fixedVars versionLabelsPR) versionLabelsPR.Labels).keys.Nodup
    ∧ sortStrings ((addLabels (fun c => c) (fixedVars versionLabelsPR)
          versionLabelsPR.Labels).map renderLine)
        ≠ (sortedByKey (addLabels (fun c => c) (fixedVars versionLabelsPR)
          versionLabelsPR.Labels)).map renderLine
    ∧ strLess "PR_LABEL_V1".toList "PR_LABEL_V10".toList = true
    ∧ generatedText defaultOptions (fun c => c) (fun e => e) (Except.ok []) versionLabelsPR
        = some (Except.ok ("export PR_BASE_REF=\"main\"\nexport PR_BASE_SHA=\"abc123\"\n"
            ++ "export PR_HEAD_REF=\"feature-1\"\nexport PR_HEAD_SHA=\"def456\"\n"
            ++ "export PR_LABEL_V10=\"true\"\nexport PR_LABEL_V1=\"true\"").toList) :=
  ⟨by decide, by decide, by decide, by rfl⟩

/-- C5, amended: for every map with distinct keys in which, whenever one key
is the beginning of another, the longer key goes on with a character above `=`
(capital letters and `_` are, digits are not), and for every order `it` in
which the entries are visited, sorting the rendered lines gives the lines of
the entries sorted by key. -/
theorem sorted_lines_follow_keys (e : EnvMap) (it : List (Str × Str)) (hit : it.Perm e)
    (hnodup : e.keys.Nodup)
    (hnext : ∀ k1 ∈ e.keys, ∀ k2 ∈ e.keys, HasPrefix k2 k1 = true →
      ∀ c ∈ (k2.drop k1.length).head?, '='.toNat < c.toNat) :
    sortStrings (it.map renderLine) = (sortedByKey e).map renderLine := by
  have hp : (sortedByKey e).Perm e := List.perm_insertionSort keyLe e
  have hperm : ((sortedByKey e).map renderLine).Perm (it.map renderLine) :=
    (hp.trans hit.symm).map _
  have hs : (sortedByKey e).Pairwise keyLe := List.sorted_insertionSort keyLe e
  have hn : (sortedByKey e).Pairwise (fun a b => a.1 ≠ b.1) := by
    have : ((sortedByKey e).map Prod.fst).Nodup := (hp.map _).nodup_iff.2 hnodup
    exact List.pairwise_map.1 this
  have hkey : ∀ a ∈ sortedByKey e, a.1 ∈ e.keys :=
    fun a ha => List.mem_map.2 ⟨a, hp.subset ha, rfl⟩
  have hsorted : ((sortedByKey e).map renderLine).Sorted strLe := by
    rw [List.Sorted, List.pairwise_map]
    refine (hs.and hn).imp_of_mem ?_
    intro a b ha hb hab
    exact renderLine_le a b hab.2 hab.1 (hnext a.1 (hkey a ha) b.1 (hkey b hb))
  exact sortStrings_unique _ _ hperm hsorted

/-- Witness of the amended C5: the labels `ab` and `a`, whose keys
`PR_LABEL_AB` and `PR_LABEL_A` begin alike. -/
theorem sorted_lines_follow_keys_witness :
    (addLabels (fun c => c) (fixedVars letterLabelsPR) letterLabelsPR.Labels).reverse.Perm
      (addLabels (fun c => c) (fixedVars letterLabelsPR) letterLabelsPR.Labels)
    ∧ (addLabels (fun c => c) (fixedVars letterLabelsPR) letterLabelsPR.Labels).keys.Nodup
    ∧ (∀ k1 ∈ (addLabels (fun c => c) (fixedVars letterLabelsPR) letterLabelsPR.Labels).keys,
        ∀ k2 ∈ (addLabels (fun c => c) (fixedVars letterLabelsPR) letterLabelsPR.Labels).keys,
        HasPrefix k2 k1 = true → ∀ c ∈ (k2.drop k1.length).head?, '='.toNat < c.toNat)
    ∧ sortStrings ((addLabels (fun c => c) (fixedVars letterLabelsPR)
          letterLabelsPR.Labels).reverse.map renderLine)
        = (sortedByKey (addLabels (fun c => c) (fixedVars letterLabelsPR)
          letterLabelsPR.Labels)).map renderLine :=
  ⟨List.reverse_perm _, by decide, by decide,
    sorted_lines_follow_keys _ _ (List.reverse_perm _) (by decide) (by decide)⟩

/-- C3: when every line of the comment body, once trimmed, does not start
with the comment prefix, or has no `=` after the prefix, or has an empty name
(nothing but white space) between the prefix and the first `=`, then
`parseComments` returns the map it was given, unchanged. -/
theorem parseComments_without_directive (o : Options) (envVars : EnvMap) (body : Str)
    (h : ∀ line ∈ Split body '\n',
      HasPrefix (TrimSpace line) o.CommentPrefix = false
      ∨ '=' ∉ (TrimSpace line).drop o.CommentPrefix.length
      ∨ TrimSpace (((TrimSpace line).drop o.CommentPrefix.length).takeWhile
          (fun c => c != '=')) = []) :
    parseComments o envVars body = some envVars :=
  parseLines_skip o envVars _ (fun line hl => parseLine_skip o envVars line (h line hl))

/-- Witness of C3: a body with a line of prose, a directive with no `=`, a
directive with an empty name and a line that only mentions the prefix. -/
theorem parseComments_without_directive_witness :
    (∀ line ∈ Split "LGTM = ok\n/jx-var FOO\n  /jx-var  =bar\nsee /jx-var A=b".toList '\n',
      HasPrefix (TrimSpace line) defaultOptions.CommentPrefix = false
      ∨ '=' ∉ (TrimSpace line).drop defaultOptions.CommentPrefix.length
      ∨ TrimSpace (((TrimSpace line).drop defaultOptions.CommentPrefix.length).takeWhile
          (fun c => c != '=')) = [])
    ∧ parseComments defaultOptions [("K".toList, "v".toList)]
        "LGTM = ok\n/jx-var FOO\n  /jx-var  =bar\nsee /jx-var A=b".toList
      = some [("K".toList, "v".toList)] :=
  ⟨by decide, parseComments_without_directive defaultOptions _ _ (by decide)⟩

/-- C2 (the code fails where the claim says it cannot): with the default
flags, on the comment body `/jx-var A="` the value is the single character `"`,
it passes both the `HasPrefix` and the `HasSuffix` test, and the slice
`value[1 : len(value)-1]` is `value[1:0]`: `parseComments` panics, whatever the
map holds. -/
theorem parseComments_lone_quote_panics (envVars : EnvMap) :
    parseComments defaultOptions envVars "/jx-var A=\"".toList = none := by
  rfl

/-- C6: with collaborators that succeed, `modifyVariables` writes the banner,
the text, a newline and, only for non-empty previous content `p`, the separator
and `p`; an absent file counts as empty.  Writing `t1` to an absent file and
then `t2` leaves the banner, `t2`, a newline, the separator and the whole first
write; and the content written is always strictly longer than the previous
content. -/
theorem modifyVariables_layers (t p t1 t2 : Str) :
    modifyVariables FileOps.allOk t (some p)
        = Except.ok ("\n# generated by: jx gitops pr variables\n".toList ++ t ++ "\n".toList
            ++ (if p = [] then [] else "\n\n# content from git...\n".toList ++ p))
    ∧ modifyVariables FileOps.allOk t none
        = Except.ok ("\n# generated by: jx gitops pr variables\n".toList ++ t ++ "\n".toList)
    ∧ modifyVariables FileOps.allOk t2
          (some ("\n# generated by: jx gitops pr variables\n".toList ++ t1 ++ "\n".toList))
        = Except.ok ("\n# generated by: jx gitops pr variables\n".toList ++ t2 ++ "\n".toList
            ++ "\n\n# content from git...\n".toList
            ++ ("\n# generated by: jx gitops pr variables\n".toList ++ t1 ++ "\n".toList))
    ∧ (∃ c, modifyVariables FileOps.allOk t (some p) = Except.ok c ∧ p.length < c.length)
    ∧ (∃ c, modifyVariables FileOps.allOk t none = Except.ok c ∧ 0 < c.length) := by
  have hsome : ∀ (x q : Str), modifyVariables FileOps.allOk x (some q)
      = Except.ok (composeContent x q) := fun _ _ => rfl
  have hnone : ∀ x : Str, modifyVariables FileOps.allOk x none
      = Except.ok (composeContent x []) := fun _ => rfl
  refine ⟨?_, ?_, ?_, ?_, ?_⟩
  · rw [hsome]
    by_cases hp : p = []
    · simp [composeContent, generatedBanner, hp]
    · simp [composeContent, generatedBanner, gitSeparator, hp]
  · rw [hnone]; simp [composeContent, generatedBanner]
  · rw [hsome]; simp [composeContent, generatedBanner, gitSeparator]
  · refine ⟨_, hsome t p, ?_⟩
    by_cases hp : p = []
    · simp [composeContent, generatedBanner, hp]
    · simp [composeContent, generatedBanner, gitSeparator, hp]
      omega
  · refine ⟨_, hnone t, ?_⟩
    simp [composeContent, generatedBanner]

/-- C7: when ProjectID, ClusterName and ProjectNumber are non-empty and Region
or Zone is non-empty, `ResolveGKE` succeeds and leaves the whole state as it
was: no event (HTTP request, save, commit) is added and the cluster
configuration is unchanged, for every world and every setting of the flags. -/
theorem ResolveGKE_complete_noop (w : World) (s : ResolveState)
    (hid : s.cluster.ProjectID ≠ []) (hname : s.cluster.ClusterName ≠ [])
    (hnum : s.cluster.projectNumber ≠ [])
    (hloc : s.cluster.Region ≠ [] ∨ s.cluster.Zone ≠ []) :
    (ResolveGKE w s).1 = Except.ok ()
    ∧ (ResolveGKE w s).2.trace = s.trace
    ∧ (ResolveGKE w s).2.cluster = s.cluster
    ∧ (ResolveGKE w s).2.cluster.projectNumber = s.cluster.projectNumber := by
  have hcfg : ∃ g, s.cluster.GKEConfig = some g := by
    cases hg : s.cluster.GKEConfig with
    | none => simp [ClusterConfig.projectNumber, hg] at hnum
    | some g => exact ⟨g, rfl⟩
  obtain ⟨g, hg⟩ := hcfg
  have hz : s.cluster.Zone ≠ [] ∨ s.cluster.Region ≠ [] := hloc.symm
  have : ResolveGKE w s = (Except.ok (), s) := by
    unfold ResolveGKE
    simp only [hg]
    rw [if_pos ⟨hid, hname, hnum, hz⟩]
  rw [this]
  exact ⟨rfl, rfl, rfl, rfl⟩

/-- Witness of C7. -/
theorem ResolveGKE_complete_noop_witness :
    (ResolveGKE outsideWorld completeState).1 = Except.ok ()
    ∧ (ResolveGKE outsideWorld completeState).2.trace = completeState.trace
    ∧ (ResolveGKE outsideWorld completeState).2.cluster = completeState.cluster
    ∧ (ResolveGKE outsideWorld completeState).2.cluster.projectNumber
        = completeState.cluster.projectNumber :=
  ResolveGKE_complete_noop outsideWorld completeState (by decide) (by decide) (by decide)
    (Or.inr (by decide))

/-- C8: when a field is missing, the in-cluster check is not switched off and
the process is not inside the cluster, `ResolveGKE` returns the not-in-cluster
error, adds no event (HTTP request, save, commit) and leaves ProjectID,
ClusterName, Region and Zone as they were. -/
theorem ResolveGKE_outside_cluster_fails (w : World) (s : ResolveState)
    (hmissing : s.cluster.ProjectID = [] ∨ s.cluster.ClusterName = []
      ∨ s.cluster.projectNumber = [] ∨ (s.cluster.Region = [] ∧ s.cluster.Zone = []))
    (hflag : s.NoInClusterCheck = false) (hout : w.isInCluster = false) :
    (ResolveGKE w s).1 = Except.error ResolveError.notInCluster
    ∧ (ResolveGKE w s).2.trace = s.trace
    ∧ (ResolveGKE w s).2.cluster.ProjectID = s.cluster.ProjectID
    ∧ (ResolveGKE w s).2.cluster.ClusterName = s.cluster.ClusterName
    ∧ (ResolveGKE w s).2.cluster.Region = s.cluster.Region
    ∧ (ResolveGKE w s).2.cluster.Zone = s.cluster.Zone := by
  have hnot : ¬ (s.cluster.ProjectID ≠ [] ∧ s.cluster.ClusterName ≠ []
      ∧ s.cluster.projectNumber ≠ [] ∧ (s.cluster.Zone ≠ [] ∨ s.cluster.Region ≠ [])) := by
    rintro ⟨h1, h2, h3, h4⟩
    rcases hmissing with h | h | h | ⟨hr, hz⟩
    · exact h1 h
    · exact h2 h
    · exact h3 h
    · rcases h4 with h | h
      · exact h hz
      · exact h hr
  cases hg : s.cluster.GKEConfig with
  | none =>
    unfold ResolveGKE
    simp only [hg]
    simp [ClusterConfig.projectNumber, hflag, hout]
  | some g =>
    unfold ResolveGKE
    simp only [hg]
    rw [if_neg hnot, if_pos ⟨hflag, hout⟩]
    exact ⟨rfl, rfl, rfl, rfl, rfl, rfl⟩

/-- Witness of C8. -/
theorem ResolveGKE_outside_cluster_fails_witness :
    (ResolveGKE outsideWorld emptyState).1 = Except.error ResolveError.notInCluster
    ∧ (ResolveGKE outsideWorld emptyState).2.trace = emptyState.trace
    ∧ (ResolveGKE outsideWorld emptyState).2.cluster.ProjectID = emptyState.cluster.ProjectID
    ∧ (ResolveGKE outsideWorld emptyState).2.cluster.ClusterName = emptyState.cluster.ClusterName
    ∧ (ResolveGKE outsideWorld emptyState).2.cluster.Region = emptyState.cluster.Region
    ∧ (ResolveGKE outsideWorld emptyState).2.cluster.Zone = emptyState.cluster.Zone :=
  ResolveGKE_outside_cluster_fails outsideWorld emptyState (Or.inl rfl) rfl rfl

/-- One successful fetch: the request is recorded and the trimmed body comes
back. -/
theorem getGKEMetadata_ok (w : World) (s : ResolveState) (path body : Str)
    (hep : s.MetadataEndpoint ≠ [])
    (hreq : w.newRequestFails (w.urlJoin s.MetadataEndpoint path) = false)
    (hget : w.get (w.urlJoin s.MetadataEndpoint path) = some body) :
    getGKEMetadata w path s
      = (Except.ok (TrimSpace body),
          { s with trace := s.trace ++ [Event.httpGet (w.urlJoin s.MetadataEndpoint path)] }) := by
  simp [getGKEMetadata, getGKEMetadataEndpoint, hep, hreq, hget]

/-- A successful `fetchInto`: the request is recorded and the trimmed body is
stored. -/
theorem fetchInto_ok (w : World) (s : ResolveState) (path body : Str)
    (assign : ClusterConfig → Str → ClusterConfig)
    (hep : s.MetadataEndpoint ≠ [])
    (hreq : w.newRequestFails (w.urlJoin s.MetadataEndpoint path) = false)
    (hget : w.get (w.urlJoin s.MetadataEndpoint path) = some body) :
    fetchInto w path assign s
      = (Except.ok (),
          { s with
            cluster := assign s.cluster (TrimSpace body)
            trace := s.trace ++ [Event.httpGet (w.urlJoin s.MetadataEndpoint path)] }) := by
  rw [fetchInto, getGKEMetadata_ok w s path body hep hreq hget]

/-- The endpoint after defaulting is not empty. -/
theorem getGKEMetadataEndpoint_ne_nil (s : ResolveState) : (getGKEMetadataEndpoint s).1 ≠ [] := by
  unfold getGKEMetadataEndpoint
  split_ifs with h
  · exact (by decide : GKEMetadataEndpoint ≠ [])
  · exact h

/-- The endpoint in use: the configured one, or the default. -/
theorem getGKEMetadataEndpoint_fst (s : ResolveState) :
    (getGKEMetadataEndpoint s).1
      = if s.MetadataEndpoint = [] then GKEMetadataEndpoint else s.MetadataEndpoint := by
  unfold getGKEMetadataEndpoint
  split_ifs <;> rfl

/-- Defaulting the endpoint only stores the endpoint. -/
theorem getGKEMetadataEndpoint_state (s : ResolveState) :
    (getGKEMetadataEndpoint s).2 = { s with MetadataEndpoint := (getGKEMetadataEndpoint s).1 } := by
  unfold getGKEMetadataEndpoint
  split_ifs with h
  · rfl
  · rfl

/-- With every fetch succeeding, `resolveMissing` reaches the save with each
missing field filled from its own path. -/
theorem resolveMissing_ok (w : World) (body : Str → Str) (s : ResolveState)
    (pid pnum name loc : Str)
    (f1 : pid = [] →
      w.newRequestFails (w.urlJoin (getGKEMetadataEndpoint s).1 GKEPathProjectID) = false
      ∧ w.get (w.urlJoin (getGKEMetadataEndpoint s).1 GKEPathProjectID)
          = some (body GKEPathProjectID))
    (f2 : pnum = [] →
      w.newRequestFails (w.urlJoin (getGKEMetadataEndpoint s).1 GKEPathProjectNumber) = false
      ∧ w.get (w.urlJoin (getGKEMetadataEndpoint s).1 GKEPathProjectNumber)
          = some (body GKEPathProjectNumber))
    (f3 : name = [] →
      w.newRequestFails (w.urlJoin (getGKEMetadataEndpoint s).1 GKEPathClusterName) = false
      ∧ w.get (w.urlJoin (getGKEMetadataEndpoint s).1 GKEPathClusterName)
          = some (body GKEPathClusterName))
    (f4 : loc = [] →
      w.newRequestFails (w.urlJoin (getGKEMetadataEndpoint s).1 GKEPathClusterLocation) = false
      ∧ w.get (w.urlJoin (getGKEMetadataEndpoint s).1 GKEPathClusterLocation)
          = some (body GKEPathClusterLocation)) :
    resolveMissing w pid pnum name loc s = saveAndCommit w
      { s with
        MetadataEndpoint := (getGKEMetadataEndpoint s).1
        cluster :=
          { ProjectID :=
              if pid = [] then TrimSpace (body GKEPathProjectID) else s.cluster.ProjectID
            ClusterName :=
              if name = [] then TrimSpace (body GKEPathClusterName) else s.cluster.ClusterName
            Region := s.cluster.Region
            Zone := if loc = [] then TrimSpace (body GKEPathClusterLocation) else s.cluster.Zone
            GKEConfig :=
              if pnum = [] then some { ProjectNumber := TrimSpace (body GKEPathProjectNumber) }
              else s.cluster.GKEConfig }
        trace :=
          s.trace
          ++ (if pid = [] then
                [Event.httpGet (w.urlJoin (getGKEMetadataEndpoint s).1 GKEPathProjectID)] else [])
          ++ (if pnum = [] then
                [Event.httpGet (w.urlJoin (getGKEMetadataEndpoint s).1 GKEPathProjectNumber)]
              else [])
          ++ (if name = [] then
                [Event.httpGet (w.urlJoin (getGKEMetadataEndpoint s).1 GKEPathClusterName)]
              else [])
          ++ (if loc = [] then
                [Event.httpGet (w.urlJoin (getGKEMetadataEndpoint s).1 GKEPathClusterLocation)]
              else []) } := by
  have hE := getGKEMetadataEndpoint_ne_nil s
  unfold resolveMissing
  simp only [getGKEMetadataEndpoint_state]
  generalize (getGKEMetadataEndpoint s).1 = E at hE f1 f2 f3 f4 ⊢
  by_cases h1 : pid = [] <;> by_cases h2 : pnum = [] <;> by_cases h3 : name = [] <;>
    by_cases h4 : loc = [] <;>
    simp_all [orReturn, fetchInto_ok]

/-- What `saveAndCommit` leaves behind: the configuration as it was, one save
event carrying it, and a commit event when the save succeeded and commits are
not suppressed. -/
theorem saveAndCommit_state (w : World) (t : ResolveState) :
    (saveAndCommit w t).2.cluster = t.cluster
    ∧ (saveAndCommit w t).2.trace
        = t.trace ++ [Event.saveConfig t.cluster]
          ++ (if w.saveOk t.cluster = true ∧ t.NoCommit = false then [Event.commit] else []) := by
  unfold saveAndCommit
  cases hs : w.saveOk t.cluster <;> cases hn : t.NoCommit <;> cases hc : w.commitOk <;>
    simp [hs, hn, hc]

/-- Saving and committing do not touch the configuration. -/
theorem saveAndCommit_cluster (w : World) (t : ResolveState) :
    (saveAndCommit w t).2.cluster = t.cluster := (saveAndCommit_state w t).1

/-- C9: when a field is missing, the in-cluster check passes and every fetch
succeeds (`body path` is the response body for `path`), `ResolveGKE` fetches
exactly the missing fields, in the order project id, project number, cluster
name, location, then saves.  The configuration it saves is the shared one, in
which every field that was empty holds the trimmed body of its own path, every
field that was set is unchanged, and, when Region and Zone were both empty,
Zone holds the trimmed body of the cluster-location path while Region stays
empty.  The body `"  my-project\n"` trims to `"my-project"`. -/
theorem ResolveGKE_fetches_missing (w : World) (s : ResolveState) (body : Str → Str)
    (hmissing : s.cluster.ProjectID = [] ∨ s.cluster.ClusterName = []
      ∨ s.cluster.projectNumber = [] ∨ (s.cluster.Region = [] ∧ s.cluster.Zone = []))
    (hcheck : s.NoInClusterCheck = true ∨ w.isInCluster = true)
    (hfetch : ∀ path,
      (path = GKEPathProjectID ∧ s.cluster.ProjectID = []
        ∨ path = GKEPathProjectNumber ∧ s.cluster.projectNumber = []
        ∨ path = GKEPathClusterName ∧ s.cluster.ClusterName = []
        ∨ path = GKEPathClusterLocation ∧ s.cluster.Region = [] ∧ s.cluster.Zone = []) →
      w.newRequestFails (w.urlJoin (getGKEMetadataEndpoint s).1 path) = false
      ∧ w.get (w.urlJoin (getGKEMetadataEndpoint s).1 path) = some (body path)) :
    (ResolveGKE w s).2.cluster =
        { ProjectID :=
            if s.cluster.ProjectID = [] then TrimSpace (body GKEPathProjectID)
            else s.cluster.ProjectID
          ClusterName :=
            if s.cluster.ClusterName = [] then TrimSpace (body GKEPathClusterName)
            else s.cluster.ClusterName
          Region := s.cluster.Region
          Zone :=
            if s.cluster.Region = [] ∧ s.cluster.Zone = [] then
              TrimSpace (body GKEPathClusterLocation)
            else s.cluster.Zone
          GKEConfig := some
            { ProjectNumber :=
                if s.cluster.projectNumber = [] then TrimSpace (body GKEPathProjectNumber)
                else s.cluster.projectNumber } }
    ∧ (ResolveGKE w s).2.trace =
        s.trace
        ++ (if s.cluster.ProjectID = [] then
              [Event.httpGet (w.urlJoin (getGKEMetadataEndpoint s).1 GKEPathProjectID)] else [])
        ++ (if s.cluster.projectNumber = [] then
              [Event.httpGet (w.urlJoin (getGKEMetadataEndpoint s).1 GKEPathProjectNumber)]
            else [])
        ++ (if s.cluster.ClusterName = [] then
              [Event.httpGet (w.urlJoin (getGKEMetadataEndpoint s).1 GKEPathClusterName)] else [])
        ++ (if s.cluster.Region = [] ∧ s.cluster.Zone = [] then
              [Event.httpGet (w.urlJoin (getGKEMetadataEndpoint s).1 GKEPathClusterLocation)]
            else [])
        ++ [Event.saveConfig (ResolveGKE w s).2.cluster]
        ++ (if w.saveOk (ResolveGKE w s).2.cluster = true ∧ s.NoCommit = false then
              [Event.commit] else [])
    ∧ TrimSpace "  my-project\n".toList = "my-project".toList := by
  have hnic : ¬ (s.NoInClusterCheck = false ∧ w.isInCluster = false) := by
    rintro ⟨h1, h2⟩
    rcases hcheck with h | h
    · rw [h1] at h; cases h
    · rw [h2] at h; cases h
  obtain ⟨⟨pid, name, region, zone, g⟩, nic, nc, ep, tr⟩ := s
  simp only [] at hmissing hnic hfetch ⊢
  have hloc : (if region = [] then zone else region) = [] ↔ (region = [] ∧ zone = []) := by
    by_cases h : region = [] <;> simp [h]
  cases g with
  | none =>
    have hrun : ResolveGKE w ⟨⟨pid, name, region, zone, none⟩, nic, nc, ep, tr⟩
        = resolveMissing w pid [] name (if region = [] then zone else region)
            ⟨⟨pid, name, region, zone, some ⟨[]⟩⟩, nic, nc, ep, tr⟩ := by
      simp [ResolveGKE, ClusterConfig.projectNumber, hnic]
    rw [hrun, resolveMissing_ok w body ⟨⟨pid, name, region, zone, some ⟨[]⟩⟩, nic, nc, ep, tr⟩
      pid [] name _
      (fun h => by
        simpa [getGKEMetadataEndpoint_fst] using hfetch GKEPathProjectID (Or.inl ⟨rfl, h⟩))
      (fun _ => by
        simpa [getGKEMetadataEndpoint_fst] using
          hfetch GKEPathProjectNumber (Or.inr (Or.inl ⟨rfl, rfl⟩)))
      (fun h => by
        simpa [getGKEMetadataEndpoint_fst] using
          hfetch GKEPathClusterName (Or.inr (Or.inr (Or.inl ⟨rfl, h⟩))))
      (fun h => by
        simpa [getGKEMetadataEndpoint_fst] using
          hfetch GKEPathClusterLocation (Or.inr (Or.inr (Or.inr ⟨rfl, hloc.1 h⟩))))]
    refine ⟨?_, ?_, by decide⟩
    · rw [saveAndCommit_cluster]
      simp [ClusterConfig.projectNumber, hloc]
    · rw [(saveAndCommit_state w _).2, saveAndCommit_cluster]
      simp [ClusterConfig.projectNumber, hloc, getGKEMetadataEndpoint_fst]
  | some g =>
    have hnot : ¬ (pid ≠ [] ∧ name ≠ [] ∧ g.ProjectNumber ≠ [] ∧ (zone ≠ [] ∨ region ≠ [])) := by
      rintro ⟨h1, h2, h3, h4⟩
      rcases hmissing with h | h | h | ⟨hr, hz⟩
      · exact h1 h
      · exact h2 h
      · exact h3 h
      · rcases h4 with h | h
        · exact h hz
        · exact h hr
    have hrun : ResolveGKE w ⟨⟨pid, name, region, zone, some g⟩, nic, nc, ep, tr⟩
        = resolveMissing w pid g.ProjectNumber name (if region = [] then zone else region)
            ⟨⟨pid, name, region, zone, some g⟩, nic, nc, ep, tr⟩ := by
      unfold ResolveGKE
      simp only [ClusterConfig.projectNumber]
      rw [if_neg hnot, if_neg hnic]
    rw [hrun, resolveMissing_ok w body _ pid g.ProjectNumber name _
      (fun h => hfetch GKEPathProjectID (Or.inl ⟨rfl, h⟩))
      (fun h => hfetch GKEPathProjectNumber (Or.inr (Or.inl ⟨rfl, h⟩)))
      (fun h => hfetch GKEPathClusterName (Or.inr (Or.inr (Or.inl ⟨rfl, h⟩))))
      (fun h => hfetch GKEPathClusterLocation (Or.inr (Or.inr (Or.inr ⟨rfl, hloc.1 h⟩))))]
    refine ⟨?_, ?_, by decide⟩
    · rw [saveAndCommit_cluster]
      by_cases hn : g.ProjectNumber = [] <;> simp [ClusterConfig.projectNumber, hloc, hn]
    · rw [(saveAndCommit_state w _).2, saveAndCommit_cluster]
      by_cases hn : g.ProjectNumber = [] <;>
        simp [ClusterConfig.projectNumber, hloc, hn, getGKEMetadataEndpoint_fst]

/-- Witness of C9: nothing is known, the process runs inside the cluster and
the metadata server answers every request. -/
theorem ResolveGKE_fetches_missing_witness :
    (emptyState.cluster.ProjectID = [] ∨ emptyState.cluster.ClusterName = []
      ∨ emptyState.cluster.projectNumber = []
      ∨ (emptyState.cluster.Region = [] ∧ emptyState.cluster.Zone = []))
    ∧ (emptyState.NoInClusterCheck = true ∨ insideWorld.isInCluster = true)
    ∧ (ResolveGKE insideWorld emptyState).2.cluster
        = { ProjectID := "my-project".toList, ClusterName := "my-cluster".toList, Region := [],
            Zone := "europe-west1-b".toList,
            GKEConfig := some { ProjectNumber := "12345".toList } } :=
  ⟨Or.inl rfl, Or.inr rfl,
    (ResolveGKE_fetches_missing insideWorld emptyState metadataBody (Or.inl rfl) (Or.inr rfl)
      (fun _ _ => ⟨rfl, rfl⟩)).1⟩

end JxGitops
